import Mathlib

/-!
Verification of the `dumpy` schema-driven binary codec engine
(`src/dumpy/types.py`), shallowly embedded in Lean.

The embedding covers the composite engine for primitive-typed fields:
the integer primitive codecs (`Int8`/`UInt8`/`Int16`/`UInt16`/`Int32`/
`UInt32`, little-endian byte order as configured by the test suite and by
the spec's concrete scenario), the field-specification table built by
`DumpyMeta._new_composite`, and `CompositeStructMixin`'s
`_get_field` / `__getitem__` / `__setitem__` / `pack` / `pack_into` /
`unpack` / `unpack_from` / `size`.

Modelling decisions, each mirroring a concrete feature of the source:
* Python `dict` state is an association list `Store` with
  replace-or-append update; stored field values are raw integers or flat
  lists of integers (`FieldVal`), exactly the shapes the composite API
  produces for primitive-typed fields.
* The repository's resolver helpers `counted_by` and `count_of` form a
  closed resolver type `Resolver`; a count is a literal or a resolver, a
  default is absent, a literal, or a resolver, exactly as `field`
  permits.
* Resolver evaluation re-enters `__getitem__` on the same object, so the
  source can recurse without bound on cyclic resolver chains (a Python
  `RecursionError`); the embedding makes this explicit with a `fuel`
  argument, consumed once per resolver dispatch, and an `outOfFuel`
  error.  Every non-resolver code path ignores the fuel.
* Exceptions are values of `Err`, one constructor per raise site of the
  source (plus the two `struct.error` cases and Python's own `TypeError`
  from `len()` on a non-sequence).
* `_get_field`'s `val_list += default_list` mutates the stored list
  object in place when the field is present in the dict; the embedding
  threads the store through every operation and performs that update
  explicitly.
-/

/-- Decidable equality of fallible results, for the executable
hypothesis checkers below. -/
instance exceptDecEq {ε α : Type} [DecidableEq ε] [DecidableEq α] :
    DecidableEq (Except ε α) := fun a b =>
  match a, b with
  | .error e₁, .error e₂ =>
    if h : e₁ = e₂ then .isTrue (by rw [h]) else .isFalse (by intro hh; cases hh; exact h rfl)
  | .ok v₁, .ok v₂ =>
    if h : v₁ = v₂ then .isTrue (by rw [h]) else .isFalse (by intro hh; cases hh; exact h rfl)
  | .error _, .ok _ => .isFalse (by intro hh; cases hh)
  | .ok _, .error _ => .isFalse (by intro hh; cases hh)

namespace Dumpy

/-- The integer primitive codec kinds (`Int8` .. `UInt32` in the source).
The float codecs are omitted: no claim mentions them and floating-point
layout is outside the embedding. -/
inductive PrimTy where
  | int8
  | uint8
  | int16
  | uint16
  | int32
  | uint32
deriving DecidableEq, Repr

/-- Byte width of the primitive's struct format (`__struct__.size`). -/
def PrimTy.width : PrimTy → Nat
  | .int8 => 1
  | .uint8 => 1
  | .int16 => 2
  | .uint16 => 2
  | .int32 => 4
  | .uint32 => 4

/-- Whether the struct format is signed. -/
def PrimTy.signed : PrimTy → Bool
  | .int8 => true
  | .uint8 => false
  | .int16 => true
  | .uint16 => false
  | .int32 => true
  | .uint32 => false

/-- `256 ^ width`, the number of representable bit patterns. -/
def PrimTy.modulus (t : PrimTy) : Nat := 256 ^ t.width

/-- The value range accepted by `struct.pack` for this format. -/
def PrimTy.inRange (t : PrimTy) (v : Int) : Bool :=
  if t.signed then
    decide (-((t.modulus : Int) / 2) ≤ v ∧ v < (t.modulus : Int) / 2)
  else
    decide (0 ≤ v ∧ v < (t.modulus : Int))

/-- Little-endian byte decomposition of `m` into `w` bytes. -/
def toLE : Nat → Nat → List Nat
  | 0, _ => []
  | w + 1, m => (m % 256) :: toLE w (m / 256)

/-- Little-endian byte recomposition. -/
def fromLE : List Nat → Nat
  | [] => 0
  | b :: bs => b + 256 * fromLE bs

/-- The little-endian encoding of `v` under format `t` (the bytes
`struct.pack` emits for an in-range value). -/
def encodePrim (t : PrimTy) (v : Int) : List Nat :=
  toLE t.width (v % (t.modulus : Int)).toNat

/-- The value `struct.unpack` reads from `width` little-endian bytes. -/
def decodePrim (t : PrimTy) (bs : List Nat) : Int :=
  let n := fromLE bs
  if t.signed && decide (t.modulus ≤ 2 * n) then (n : Int) - (t.modulus : Int)
  else (n : Int)

/-- Exception values, one constructor per raise site of the source. -/
inductive Err where
  /-- Python `KeyError` (undeclared field name, or a count-1 field read
  with no stored value and no default). -/
  | keyError (fname : String)
  /-- `ValueError` in `__getitem__` when `_get_field` yields `None`. -/
  | cannotRead (fname : String)
  /-- `ValueError` in `_get_field`: fewer stored values than a literal
  count and no default. -/
  | expectedValues (count : Int) (fname : String) (got : Nat)
  /-- `TypeError` in `__setitem__`: a list is required. -/
  | needsList (fname : String)
  /-- `ValueError` in `__setitem__`: wrong number of values. -/
  | needsValues (fname : String) (count : Int) (got : Nat)
  /-- `TypeError` in `__setitem__`: a count-1 field cannot accept a list. -/
  | cannotAcceptList (fname : String)
  /-- `ValueError` in `__setitem__`: assignment to a field with
  non-positive literal count. -/
  | noSpace (fname : String)
  /-- `ValueError` in `CompositeStructMixin.pack_into`: the buffer has
  fewer than `size` bytes left at the offset. -/
  | packIntoSpace (needed : Nat) (got : Nat)
  /-- `struct.error`: value out of range for the format. -/
  | structRange
  /-- `struct.error`: the buffer is too short to read or write a
  primitive at the offset. -/
  | bufferTooShort
  /-- Python `TypeError` raised by the runtime itself (`len()` of a
  non-sequence, `range()` of a non-integer). -/
  | pyTypeError
  /-- Model bound for unbounded resolver recursion (`RecursionError`). -/
  | outOfFuel
deriving DecidableEq, Repr

/-- A stored field value: a raw scalar or a flat list of scalars. -/
inductive FieldVal where
  | scalar (v : Int)
  | list (vs : List Int)
deriving DecidableEq, Repr

/-- The values a `FieldVal` contributes to pack/size
(`if not isinstance(val, list): val = [val]`). -/
def FieldVal.toVals : FieldVal → List Int
  | .scalar v => [v]
  | .list vs => vs

/-- First-match association-list lookup (Python `dict` access). -/
def getEntries : List (String × FieldVal) → String → Option FieldVal
  | [], _ => none
  | (k, v) :: rest, f => if k = f then some v else getEntries rest f

/-- Replace-or-append association-list update (Python `dict` store). -/
def setEntries : List (String × FieldVal) → String → FieldVal → List (String × FieldVal)
  | [], f, v => [(f, v)]
  | (k, w) :: rest, f, v =>
    if k = f then (f, v) :: rest else (k, w) :: setEntries rest f v

/-- The composite value's own mapping (its `dict` contents). -/
structure Store where
  entries : List (String × FieldVal)
deriving DecidableEq, Repr

/-- The empty composite, as produced by `cls()`. -/
def Store.empty : Store := ⟨[]⟩

/-- `dict.__getitem__`, returning `none` on a missing key. -/
def Store.get (st : Store) (f : String) : Option FieldVal :=
  getEntries st.entries f

/-- `dict.__setitem__`. -/
def Store.set (st : Store) (f : String) (v : FieldVal) : Store :=
  ⟨setEntries st.entries f v⟩

/-- The closed set of resolver functions the repository defines:
`counted_by(name)` returns `obj[name]`, `count_of(name)` returns
`len(obj[name])`. -/
inductive Resolver where
  | countedBy (g : String)
  | countOf (g : String)
deriving DecidableEq, Repr

/-- `counted_by(name)` from the source. -/
def counted_by (name : String) : Resolver := .countedBy name

/-- `count_of(name)` from the source. -/
def count_of (name : String) : Resolver := .countOf name

/-- A field's count slot: a literal integer or a resolver callable. -/
inductive CountSpec where
  | lit (n : Int)
  | dyn (r : Resolver)
deriving DecidableEq, Repr

/-- A field's default slot: `NoDefault`, a literal, or a resolver. -/
inductive DefaultSpec where
  | noDefault
  | lit (v : Int)
  | dyn (r : Resolver)
deriving DecidableEq, Repr

/-- One entry of `__field_specs__`: the 4-tuple built by `field`. -/
structure FieldSpec where
  name : String
  ftype : PrimTy
  count : CountSpec
  default : DefaultSpec
deriving DecidableEq, Repr

/-- `field(name, tp, count=1, default=NoDefault)` from the source. -/
def field (name : String) (tp : PrimTy) (count : CountSpec := .lit 1)
    (default : DefaultSpec := .noDefault) : FieldSpec :=
  ⟨name, tp, count, default⟩

/-- First-match lookup in the field-info table. -/
def lookupInfo : List (String × PrimTy × CountSpec × DefaultSpec) → String →
    Option (PrimTy × CountSpec × DefaultSpec)
  | [], _ => none
  | (k, i) :: rest, f => if k = f then some i else lookupInfo rest f

/-- Replace-or-append update of the field-info table (`dict` store). -/
def insertInfo : List (String × PrimTy × CountSpec × DefaultSpec) → String →
    (PrimTy × CountSpec × DefaultSpec) → List (String × PrimTy × CountSpec × DefaultSpec)
  | [], f, i => [(f, i)]
  | (k, j) :: rest, f, i =>
    if k = f then (f, i) :: rest else (k, j) :: insertInfo rest f i

/-- The compiled schema attached to a composite class: `__fields__`
(declaration order) and `__field_info__` (name → spec). -/
structure Schema where
  order : List String
  info : List (String × PrimTy × CountSpec × DefaultSpec)
deriving DecidableEq, Repr

/-- `self.__field_info__[fname]`. -/
def Schema.fieldInfo (s : Schema) (f : String) :
    Option (PrimTy × CountSpec × DefaultSpec) :=
  lookupInfo s.info f

/-- `DumpyMeta._new_composite`: walk `__field_specs__` in order,
appending each name to `__fields__` and recording its spec in
`__field_info__`.  No validation of any kind is performed. -/
def new_composite (specs : List FieldSpec) : Schema :=
  specs.foldl
    (fun sc sp =>
      { order := sc.order ++ [sp.name],
        info := insertInfo sc.info sp.name (sp.ftype, sp.count, sp.default) })
    { order := [], info := [] }

/-- Evaluation of a resolver callable against the composite `st`,
parameterized by the `__getitem__` implementation `gi` it re-enters:
`counted_by(g)` is `obj[g]` (a list result makes the caller's `range()`
or `len()` fail with a `TypeError`), `count_of(g)` is `len(obj[g])`. -/
def evalResolverWith (gi : Store → String → Except Err (FieldVal × Store))
    (st : Store) (r : Resolver) : Except Err (Int × Store) :=
  match r with
  | .countedBy g =>
    match gi st g with
    | .error e => .error e
    | .ok (.scalar n, st') => .ok (n, st')
    | .ok (.list _, _) => .error .pyTypeError
  | .countOf g =>
    match gi st g with
    | .error e => .error e
    | .ok (.list vs, st') => .ok ((vs.length : Int), st')
    | .ok (.scalar _, _) => .error .pyTypeError

/-- The list comprehension `[default(self) for _i in range(k)]`:
`k` sequential evaluations of the default resolver, threading the
composite state left to right. -/
def edlWith (re : Store → Resolver → Except Err (Int × Store)) :
    Store → Resolver → Nat → Except Err (List Int × Store)
  | st, _r, 0 => .ok ([], st)
  | st, r, k + 1 =>
    match re st r with
    | .error e => .error e
    | .ok (v, st') =>
      match edlWith re st' r k with
      | .error e => .error e
      | .ok (vs, st'') => .ok (v :: vs, st'')

/-- `CompositeStructMixin._get_field(fname, count, default)`,
parameterized by the resolver evaluator `re`.
Returns `none` where the source returns `None` (non-positive literal
count).  The store is threaded because the `val_list += default_list`
backfill extends the stored list object in place when the field is
present in the dict. -/
def gfWith (re : Store → Resolver → Except Err (Int × Store)) (st : Store)
    (fname : String) (count : CountSpec) (default : DefaultSpec) :
    Except Err (Option FieldVal × Store) :=
  match count with
  | .dyn _ =>
    match st.get fname with
    | some v => .ok (some v, st)
    | none => .ok (some (.list []), st)
  | .lit n =>
    if 1 < n then
      match st.get fname with
      | some (.scalar _) => .error .pyTypeError
      | some (.list vs) =>
        if (vs.length : Int) < n then
          match default with
          | .noDefault => .error (.expectedValues n fname vs.length)
          | .lit d =>
            let full := vs ++ List.replicate (n - (vs.length : Int)).toNat d
            .ok (some (.list full), st.set fname (.list full))
          | .dyn r =>
            match edlWith re st r (n - (vs.length : Int)).toNat with
            | .error e => .error e
            | .ok (ext, st') =>
              let full := vs ++ ext
              .ok (some (.list full), st'.set fname (.list full))
        else .ok (some (.list vs), st)
      | none =>
        match default with
        | .noDefault => .error (.expectedValues n fname 0)
        | .lit d => .ok (some (.list (List.replicate n.toNat d)), st)
        | .dyn r =>
          match edlWith re st r n.toNat with
          | .error e => .error e
          | .ok (ext, st') => .ok (some (.list ext), st')
    else if n = 1 then
      match default with
      | .noDefault =>
        match st.get fname with
        | some v => .ok (some v, st)
        | none => .error (.keyError fname)
      | .lit d =>
        match st.get fname with
        | some v => .ok (some v, st)
        | none => .ok (some (.scalar d), st)
      | .dyn r =>
        match re st r with
        | .error e => .error e
        | .ok (d, st') =>
          match st'.get fname with
          | some v => .ok (some v, st')
          | none => .ok (some (.scalar d), st')
    else .ok (none, st)

/-- `CompositeStructMixin.__getitem__`, parameterized by the resolver
evaluator. -/
def giWith (s : Schema) (re : Store → Resolver → Except Err (Int × Store))
    (st : Store) (fname : String) : Except Err (FieldVal × Store) :=
  match s.fieldInfo fname with
  | none => .error (.keyError fname)
  | some (_t, count, default) =>
    match gfWith re st fname count default with
    | .error e => .error e
    | .ok (none, _) => .error (.cannotRead fname)
    | .ok (some v, st') => .ok (v, st')

/-- `__getitem__` with bounded resolver recursion: each resolver
dispatch re-enters `__getitem__` with one unit of fuel less, and at
fuel 0 a resolver dispatch fails with `outOfFuel`. -/
def getItemAux : Nat → Schema → Store → String → Except Err (FieldVal × Store)
  | 0, s, st, f => giWith s (fun _ _ => .error .outOfFuel) st f
  | fuel + 1, s, st, f => giWith s (evalResolverWith (getItemAux fuel s)) st f

/-- Evaluation of a resolver callable at the given recursion budget. -/
def evalResolver (fuel : Nat) (s : Schema) (st : Store) (r : Resolver) :
    Except Err (Int × Store) :=
  match fuel with
  | 0 => .error .outOfFuel
  | fuel + 1 => evalResolverWith (getItemAux fuel s) st r

/-- `CompositeStructMixin._get_field`. -/
def get_field (fuel : Nat) (s : Schema) (st : Store) (fname : String)
    (count : CountSpec) (default : DefaultSpec) :
    Except Err (Option FieldVal × Store) :=
  gfWith (evalResolver fuel s) st fname count default

/-- `CompositeStructMixin.__getitem__`. -/
def getItem (fuel : Nat) (s : Schema) (st : Store) (fname : String) :
    Except Err (FieldVal × Store) :=
  giWith s (evalResolver fuel s) st fname

/-- `CompositeStructMixin.__setitem__` for primitive-typed fields. -/
def setItem (s : Schema) (st : Store) (fname : String) (value : FieldVal) :
    Except Err Store :=
  match s.fieldInfo fname with
  | none => .error (.keyError fname)
  | some (_t, count, default) =>
    match count with
    | .dyn _ =>
      match value with
      | .scalar _ => .error (.needsList fname)
      | .list vs => .ok (st.set fname (.list vs))
    | .lit n =>
      if 1 < n then
        match value with
        | .scalar _ => .error (.needsList fname)
        | .list vs =>
          if n < (vs.length : Int) then .error (.needsValues fname n vs.length)
          else if (vs.length : Int) < n ∧ default = .noDefault then
            .error (.needsValues fname n vs.length)
          else .ok (st.set fname (.list vs))
      else if n = 1 then
        match value with
        | .list _ => .error (.cannotAcceptList fname)
        | .scalar v => .ok (st.set fname (.scalar v))
      else .error (.noSpace fname)

/-- `PrimitiveStructMixin.pack` via `struct.pack`: range check then
little-endian encoding. -/
def packPrim (t : PrimTy) (v : Int) : Except Err (List Nat) :=
  if t.inRange v then .ok (encodePrim t v) else .error .structRange

/-- Packing one field's value list: each element packs via its codec
(`v.pack()` or `ftype(v).pack()`, identical byte output for the declared
primitive type). -/
def packValues (t : PrimTy) : List Int → Except Err (List Nat)
  | [] => .ok []
  | v :: vs =>
    match packPrim t v with
    | .error e => .error e
    | .ok bs =>
      match packValues t vs with
      | .error e => .error e
      | .ok rest => .ok (bs ++ rest)

/-- The field loop of `CompositeStructMixin.pack`: walk the names,
resolve each value via `_get_field` (skipping `None`), and append the
packed bytes of every contributed value. -/
def packFields (fuel : Nat) (s : Schema) :
    List String → Store → List Nat → Except Err (List Nat × Store)
  | [], st, acc => .ok (acc, st)
  | fname :: rest, st, acc =>
    match s.fieldInfo fname with
    | none => .error (.keyError fname)
    | some (t, count, default) =>
      match get_field fuel s st fname count default with
      | .error e => .error e
      | .ok (none, st') => packFields fuel s rest st' acc
      | .ok (some v, st') =>
        match packValues t v.toVals with
        | .error e => .error e
        | .ok bs => packFields fuel s rest st' (acc ++ bs)

/-- `CompositeStructMixin.pack`. -/
def pack (fuel : Nat) (s : Schema) (st : Store) : Except Err (List Nat × Store) :=
  packFields fuel s s.order st []

/-- The field loop of the `size` property: same traversal as `pack`,
adding each contributed value's codec width instead of emitting bytes. -/
def sizeFields (fuel : Nat) (s : Schema) :
    List String → Store → Nat → Except Err (Nat × Store)
  | [], st, acc => .ok (acc, st)
  | fname :: rest, st, acc =>
    match s.fieldInfo fname with
    | none => .error (.keyError fname)
    | some (t, count, default) =>
      match get_field fuel s st fname count default with
      | .error e => .error e
      | .ok (none, st') => sizeFields fuel s rest st' acc
      | .ok (some v, st') => sizeFields fuel s rest st' (acc + v.toVals.length * t.width)

/-- `CompositeStructMixin.size`. -/
def size (fuel : Nat) (s : Schema) (st : Store) : Except Err (Nat × Store) :=
  sizeFields fuel s s.order st 0

/-- `PrimitiveStructMixin.unpack_from` via `struct.unpack_from`: read
exactly `width` bytes at the offset, failing if the buffer is short. -/
def unpackPrimFrom (t : PrimTy) (buf : List Nat) (off : Nat) : Except Err Int :=
  if off + t.width ≤ buf.length then
    .ok (decodePrim t ((buf.drop off).take t.width))
  else .error .bufferTooShort

/-- The inner loop of `unpack_from`: read `k` primitives, advancing the
offset by each value's size. -/
def readPrims (t : PrimTy) (buf : List Nat) : Nat → Nat → Except Err (List Int × Nat)
  | _off, 0 => .ok ([], _off)
  | off, k + 1 =>
    match unpackPrimFrom t buf off with
    | .error e => .error e
    | .ok v =>
      match readPrims t buf (off + t.width) k with
      | .error e => .error e
      | .ok (vs, off') => .ok (v :: vs, off')

/-- The field loop of `CompositeStructMixin.unpack_from`: resolve the
count (against the partially built composite for resolver counts), read
that many primitives, and store a list for resolver counts, a scalar for
exactly one value under a literal count, nothing for zero values. -/
def unpackFields (fuel : Nat) (s : Schema) (buf : List Nat) :
    List String → Nat → Store → Except Err (Store × Nat)
  | [], off, st => .ok (st, off)
  | fname :: rest, off, st =>
    match s.fieldInfo fname with
    | none => .error (.keyError fname)
    | some (t, count, _default) =>
      match count with
      | .dyn r =>
        match evalResolver fuel s st r with
        | .error e => .error e
        | .ok (realCount, st₁) =>
          match readPrims t buf off realCount.toNat with
          | .error e => .error e
          | .ok (vals, off') =>
            unpackFields fuel s buf rest off' (st₁.set fname (.list vals))
      | .lit n =>
        match readPrims t buf off n.toNat with
        | .error e => .error e
        | .ok (vals, off') =>
          match vals with
          | [] => unpackFields fuel s buf rest off' st
          | [v] => unpackFields fuel s buf rest off' (st.set fname (.scalar v))
          | _ => unpackFields fuel s buf rest off' (st.set fname (.list vals))

/-- `CompositeStructMixin.unpack_from(buf, offset)`: start from an empty
composite and walk the schema.  (The `parent` weak reference carries no
data for primitive-typed fields and is not modelled.) -/
def unpack_from (fuel : Nat) (s : Schema) (buf : List Nat) (off : Nat) :
    Except Err (Store × Nat) :=
  unpackFields fuel s buf s.order off .empty

/-- `CompositeStructMixin.unpack(buf)`: exactly `unpack_from(buf, 0)`,
returning the constructed composite.  The source performs no
trailing-bytes check. -/
def unpack (fuel : Nat) (s : Schema) (buf : List Nat) : Except Err Store :=
  match unpack_from fuel s buf 0 with
  | .error e => .error e
  | .ok (st, _off) => .ok st

/-- Overwrite `bs` into `buf` at `off` (callers check bounds first). -/
def writeBytes (buf : List Nat) (off : Nat) (bs : List Nat) : List Nat :=
  buf.take off ++ bs ++ buf.drop (off + bs.length)

/-- `PrimitiveStructMixin.pack_into` via `struct.pack_into`: fails if
fewer than `width` bytes remain at the offset, else writes in place. -/
def packPrimInto (t : PrimTy) (v : Int) (buf : List Nat) (off : Nat) :
    Except Err (List Nat) :=
  if buf.length < off + t.width then .error .bufferTooShort
  else
    match packPrim t v with
    | .error e => .error e
    | .ok bs => .ok (writeBytes buf off bs)

/-- Write one field's values into the buffer at the advancing offset.
The buffer is returned even on failure, modelling in-place mutation of
the Python `bytearray` up to the failure point. -/
def writeValues (t : PrimTy) : List Int → List Nat → Nat → Except Err Unit × List Nat × Nat
  | [], buf, off => (.ok (), buf, off)
  | v :: vs, buf, off =>
    match packPrimInto t v buf off with
    | .error e => (.error e, buf, off)
    | .ok buf' => writeValues t vs buf' (off + t.width)

/-- The field loop of `CompositeStructMixin.pack_into`: same traversal
as `pack`, writing in place.  The buffer is returned even on failure. -/
def packIntoFields (fuel : Nat) (s : Schema) :
    List String → Store → List Nat → Nat → Except Err Unit × List Nat × Store
  | [], st, buf, _off => (.ok (), buf, st)
  | fname :: rest, st, buf, off =>
    match s.fieldInfo fname with
    | none => (.error (.keyError fname), buf, st)
    | some (t, count, default) =>
      match get_field fuel s st fname count default with
      | .error e => (.error e, buf, st)
      | .ok (none, st') => packIntoFields fuel s rest st' buf off
      | .ok (some v, st') =>
        match writeValues t v.toVals buf off with
        | (.error e, buf', _) => (.error e, buf', st')
        | (.ok _, buf', off') => packIntoFields fuel s rest st' buf' off'

/-- `CompositeStructMixin.pack_into(buf, offset)`: compute `self.size`
first, fail if fewer bytes remain at the offset, then write the fields.
The buffer is returned even on failure. -/
def pack_into (fuel : Nat) (s : Schema) (st : Store) (buf : List Nat) (off : Nat) :
    Except Err Unit × List Nat × Store :=
  match size fuel s st with
  | .error e => (.error e, buf, st)
  | .ok (total, st') =>
    if buf.length - off < total then
      (.error (.packIntoSpace total (buf.length - off)), buf, st')
    else packIntoFields fuel s s.order st' buf off

/-!  Auxiliary notions used by the round-trip and frame theorems. -/

/-- The store `unpack_from` has built after processing the given prefix
of the field order, assuming each processed field is reconstructed with
its value in `st` (absent fields are skipped, as `unpack_from` skips
fields that produced no values). -/
def builtUpTo (st : Store) (names : List String) : Store :=
  names.foldl
    (fun p f =>
      match st.get f with
      | some v => p.set f v
      | none => p)
    .empty

/-- `st` is fully populated and pack/unpack consistent at field `f`,
which sits after the prefix `done` of the field order:
a literal count 1 holds an in-range scalar and `_get_field` resolves it
without error or mutation (the default resolver, if any, runs even for a
stored value); a literal count above 1 holds exactly that many in-range
values; a non-positive literal count holds nothing; a resolver count
holds an in-range list and the resolver, evaluated against the composite
rebuilt from the fields before `f` exactly as `unpack_from` sees it,
yields that list's length without error or mutation. -/
def goodFieldAt (fuel : Nat) (s : Schema) (st : Store) (done : List String)
    (f : String) : Bool :=
  match s.fieldInfo f with
  | none => false
  | some (t, count, default) =>
    match count with
    | .lit n =>
      if n = 1 then
        match st.get f with
        | some (.scalar v) =>
          t.inRange v &&
            decide (get_field fuel s st f count default = .ok (some (.scalar v), st))
        | _ => false
      else if 1 < n then
        match st.get f with
        | some (.list vs) => decide ((vs.length : Int) = n) && vs.all t.inRange
        | _ => false
      else decide (st.get f = none)
    | .dyn r =>
      match st.get f with
      | some (.list vs) =>
        vs.all t.inRange &&
          decide (evalResolver fuel s (builtUpTo st done) r
            = .ok ((vs.length : Int), builtUpTo st done))
      | _ => false

/-- `goodFieldAt` for every field of the list, each relative to the
fields before it. -/
def goodFields (fuel : Nat) (s : Schema) (st : Store) :
    List String → List String → Bool
  | _done, [] => true
  | done, f :: rest =>
    goodFieldAt fuel s st done f && goodFields fuel s st (done ++ [f]) rest

/-- `_get_field` at `f` resolves to exactly the stored value (or to
nothing when nothing is stored) without error and without mutating the
composite. -/
def packsStored (fuel : Nat) (s : Schema) (st : Store) (f : String) : Bool :=
  match s.fieldInfo f with
  | none => false
  | some (_t, count, default) =>
    match st.get f with
    | some v => decide (get_field fuel s st f count default = .ok (some v, st))
    | none => decide (get_field fuel s st f count default = .ok (none, st))

/-- The only mutation `_get_field` can perform: every stored field value
of `st'` either equals its value in `st` or is a stored list of `st`
extended in place with backfilled default values. -/
def ExtendsBF (st st' : Store) : Prop :=
  ∀ f, st'.get f = st.get f ∨
    ∃ vs ext, st.get f = some (.list vs) ∧ st'.get f = some (.list (vs ++ ext))

/-!  Concrete schemas used by counterexamples and witnesses.  All of
them are buildable with the repository's public `field` helper. -/

/-- A single unsigned byte field. -/
def sByte : Schema := new_composite [field "x" .uint8]

/-- The spec's concrete scenario schema: a `uint32` length defaulting to
`count_of("data")` and a `uint8` list counted by `len`. -/
def sLenData : Schema :=
  new_composite
    [field "len" .uint32 (.lit 1) (.dyn (count_of "data")),
     field "data" .uint8 (.dyn (counted_by "len"))]

/-- The same shape with a one-byte length field. -/
def sLenData8 : Schema :=
  new_composite
    [field "len" .uint8 (.lit 1) (.dyn (count_of "data")),
     field "data" .uint8 (.dyn (counted_by "len"))]

/-- A fully populated, consistent composite for the one-byte length
schema: the stored length 2 matches the stored list's length. -/
def stC1 : Store := ⟨[("len", .scalar 2), ("data", .list [5, 6])]⟩

/-- A two-value list field with a literal default. -/
def sListDef : Schema := new_composite [field "f" .uint8 (.lit 2) (.lit 9)]

/-- One field of every arity kind, for the assignment checks. -/
def sArity : Schema :=
  new_composite
    [field "a" .uint8 (.lit 4),
     field "b" .uint8 (.lit 4) (.lit 7),
     field "c" .uint8,
     field "d" .uint8 (.dyn (counted_by "c")),
     field "e" .uint8 (.lit 1) (.lit 5)]

/-- A count-1 field whose default resolver reads another count-1 field
that has no default. -/
def sPair : Schema :=
  new_composite
    [field "g" .uint8,
     field "f" .uint8 (.lit 1) (.dyn (counted_by "g"))]

/-- A zero-count field. -/
def sZero : Schema := new_composite [field "z" .uint8 (.lit 0)]

/-- A field spec with a negative literal count. -/
def sNeg : Schema := new_composite [field "f" .uint8 (.lit (-1))]

/-- The result is not the insufficient-space error of the composite
`pack_into` (that error is raised at exactly one site, before any byte
is written). -/
def notSpaceErr {α : Type} : Except Err α → Prop
  | .error (.packIntoSpace _ _) => False
  | _ => True

/-!  General lemmas about the primitive codecs. -/

theorem toLE_length (w m : Nat) : (toLE w m).length = w := by
  induction w generalizing m with
  | zero => rfl
  | succ w ih => simp [toLE, ih]

theorem fromLE_toLE (w m : Nat) (h : m < 256 ^ w) : fromLE (toLE w m) = m := by
  induction w generalizing m with
  | zero => simp at h; simp [toLE, fromLE, h]
  | succ w ih =>
    have h2 : m / 256 < 256 ^ w := by
      rw [Nat.div_lt_iff_lt_mul (by norm_num)]
      calc m < 256 ^ (w + 1) := h
      _ = 256 ^ w * 256 := by ring
    simp [toLE, fromLE, ih _ h2]
    omega

theorem encodePrim_length (t : PrimTy) (v : Int) : (encodePrim t v).length = t.width := by
  simp [encodePrim, toLE_length]

/-- `struct.unpack(struct.pack(v))` returns `v` for every value the
format accepts. -/
theorem decode_encode (t : PrimTy) (v : Int) (h : t.inRange v = true) :
    decodePrim t (encodePrim t v) = v := by
  have hMpos : 0 < t.modulus := by cases t <;> norm_num [PrimTy.modulus, PrimTy.width]
  have hMeven : t.modulus % 2 = 0 := by cases t <;> norm_num [PrimTy.modulus, PrimTy.width]
  have h0 : (0:Int) ≤ v % (t.modulus : Int) := Int.emod_nonneg v (by exact_mod_cast hMpos.ne')
  have h1 : v % (t.modulus : Int) < (t.modulus : Int) :=
    Int.emod_lt_of_pos v (by exact_mod_cast hMpos)
  have hme : v % (t.modulus:Int) = if 0 ≤ v then v else v + (t.modulus:Int) := by
    by_cases hv : 0 ≤ v
    · rw [if_pos hv]
      apply Int.emod_eq_of_lt hv
      have h' := h
      unfold PrimTy.inRange at h'
      cases hsig : t.signed <;> rw [hsig] at h' <;> simp at h' <;> omega
    · rw [if_neg hv]
      have hadd := Int.add_mul_emod_self_left (a := v) (b := (t.modulus:Int)) (c := 1)
      have hlt : (v + (t.modulus:Int)) % (t.modulus:Int) = v + (t.modulus:Int) := by
        apply Int.emod_eq_of_lt
        · have h' := h
          unfold PrimTy.inRange at h'
          cases hsig : t.signed <;> rw [hsig] at h' <;> simp at h' <;> omega
        · omega
      rw [mul_one] at hadd
      rw [← hadd, hlt]
  have hm : ((v % (t.modulus : Int)).toNat) < 256 ^ t.width := by
    have h2 : ((v % (t.modulus:Int)).toNat : Int) = v % (t.modulus:Int) :=
      Int.toNat_of_nonneg h0
    have h3 : ((v % (t.modulus:Int)).toNat : Int) < ((256 ^ t.width : Nat) : Int) := by
      rw [h2]; exact_mod_cast h1
    exact_mod_cast h3
  have hn : (((v % (t.modulus:Int)).toNat : Nat) : Int) = v % (t.modulus:Int) :=
    Int.toNat_of_nonneg h0
  unfold decodePrim encodePrim
  rw [fromLE_toLE _ _ hm]
  generalize hgen : (v % (t.modulus:Int)).toNat = m at hn ⊢
  cases hsig : t.signed with
  | false =>
    have hr : 0 ≤ v ∧ v < (t.modulus:Int) := by
      have h' := h; unfold PrimTy.inRange at h'; rw [hsig] at h'; simpa using h'
    simp only [Bool.false_and, if_false, Bool.false_eq_true]
    omega
  | true =>
    have hr : -((t.modulus:Int)/2) ≤ v ∧ v < (t.modulus:Int)/2 := by
      have h' := h; unfold PrimTy.inRange at h'; rw [hsig] at h'; simpa using h'
    simp only [Bool.true_and]
    by_cases hc : t.modulus ≤ 2 * m
    · rw [if_pos (by simpa using hc)]
      omega
    · rw [if_neg (by simpa using hc)]
      omega

theorem packPrim_length (t : PrimTy) (v : Int) (bs : List Nat)
    (h : packPrim t v = .ok bs) : bs.length = t.width := by
  unfold packPrim at h
  by_cases hr : t.inRange v
  · rw [if_pos hr] at h
    cases h
    exact encodePrim_length t v
  · rw [if_neg hr] at h
    cases h

theorem packPrim_of_inRange (t : PrimTy) (v : Int) (h : t.inRange v = true) :
    packPrim t v = .ok (encodePrim t v) := by
  unfold packPrim
  rw [if_pos h]

/-!  Store lemmas. -/

theorem getEntries_setEntries_self (l : List (String × FieldVal)) (f : String) (v : FieldVal) :
    getEntries (setEntries l f v) f = some v := by
  induction l with
  | nil => simp [setEntries, getEntries]
  | cons kv rest ih =>
    obtain ⟨k, w⟩ := kv
    by_cases hk : k = f
    · simp [setEntries, hk, getEntries]
    · simp [setEntries, hk, getEntries, ih]

theorem getEntries_setEntries_ne (l : List (String × FieldVal)) (f g : String) (v : FieldVal)
    (h : g ≠ f) : getEntries (setEntries l f v) g = getEntries l g := by
  induction l with
  | nil => simp [setEntries, getEntries, Ne.symm h]
  | cons kv rest ih =>
    obtain ⟨k, w⟩ := kv
    by_cases hk : k = f
    · subst hk
      simp [setEntries, getEntries, Ne.symm h]
    · simp only [setEntries, if_neg hk, getEntries]
      by_cases hg : k = g
      · simp [hg]
      · simp [hg, ih]

theorem Store.get_set_self (st : Store) (f : String) (v : FieldVal) :
    (st.set f v).get f = some v :=
  getEntries_setEntries_self st.entries f v

theorem Store.get_set_ne (st : Store) (f g : String) (v : FieldVal) (h : g ≠ f) :
    (st.set f v).get g = st.get g :=
  getEntries_setEntries_ne st.entries f g v h

theorem builtUpTo_append (st : Store) (names : List String) (f : String) :
    builtUpTo st (names ++ [f]) =
      match st.get f with
      | some v => (builtUpTo st names).set f v
      | none => builtUpTo st names := by
  simp [builtUpTo, List.foldl_append]

theorem getItemAux_eq (fuel : Nat) (s : Schema) (st : Store) (f : String) :
    getItemAux fuel s st f = getItem fuel s st f := by
  cases fuel <;> rfl

theorem builtUpTo_get (st : Store) (names : List String) (f : String) :
    (builtUpTo st names).get f = if f ∈ names then st.get f else none := by
  induction names using List.reverseRecOn with
  | nil => simp [builtUpTo, Store.empty, Store.get, getEntries]
  | append_singleton l a ih =>
    rw [builtUpTo_append]
    cases hv : st.get a with
    | none =>
      simp only []
      rw [ih]
      by_cases hf : f ∈ l
      · simp [hf]
      · by_cases hfa : f = a
        · subst hfa; simp [hf, hv]
        · simp [hf, hfa]
    | some v =>
      simp only []
      by_cases hfa : f = a
      · subst hfa
        simp [Store.get_set_self, hv]
      · rw [Store.get_set_ne _ _ _ _ hfa, ih]
        simp [hfa]

/-!  Buffer-extension lemmas: reading never looks past the bytes it
consumes, so appending trailing bytes never changes a successful
parse. -/

theorem unpackPrimFrom_append (t : PrimTy) (buf extra : List Nat) (off : Nat) (v : Int)
    (h : unpackPrimFrom t buf off = .ok v) :
    unpackPrimFrom t (buf ++ extra) off = .ok v := by
  unfold unpackPrimFrom at h ⊢
  by_cases hle : off + t.width ≤ buf.length
  · rw [if_pos hle] at h
    rw [if_pos (by simp; omega)]
    rw [List.drop_append_of_le_length (by omega),
      List.take_append_of_le_length (by simp; omega)]
    exact h
  · rw [if_neg hle] at h
    cases h

theorem readPrims_append (t : PrimTy) (buf extra : List Nat) (k off : Nat)
    (res : List Int × Nat) (h : readPrims t buf off k = .ok res) :
    readPrims t (buf ++ extra) off k = .ok res := by
  induction k generalizing off res with
  | zero => simpa [readPrims] using h
  | succ k ih =>
    unfold readPrims at h ⊢
    cases hv : unpackPrimFrom t buf off with
    | error e => rw [hv] at h; cases h
    | ok v =>
      rw [hv] at h
      rw [unpackPrimFrom_append t buf extra off v hv]
      cases hr : readPrims t buf (off + t.width) k with
      | error e => rw [hr] at h; cases h
      | ok res' =>
        rw [hr] at h
        rw [ih _ _ hr]
        exact h

theorem unpackFields_append (fuel : Nat) (s : Schema) (buf extra : List Nat)
    (names : List String) (off : Nat) (st : Store) (res : Store × Nat)
    (h : unpackFields fuel s buf names off st = .ok res) :
    unpackFields fuel s (buf ++ extra) names off st = .ok res := by
  induction names generalizing off st res with
  | nil => simpa [unpackFields] using h
  | cons f rest ih =>
    unfold unpackFields at h ⊢
    cases hinfo : s.fieldInfo f with
    | none => simp [hinfo] at h
    | some info =>
      obtain ⟨t, count, default⟩ := info
      simp only [hinfo] at h ⊢
      cases count with
      | dyn r =>
        cases hr : evalResolver fuel s st r with
        | error e => simp [hr] at h
        | ok out =>
          obtain ⟨realCount, st₁⟩ := out
          simp only [hr] at h ⊢
          cases hread : readPrims t buf off realCount.toNat with
          | error e => simp [hread] at h
          | ok out' =>
            obtain ⟨vals, off'⟩ := out'
            simp only [hread] at h
            simp only [readPrims_append t buf extra _ _ _ hread]
            exact ih _ _ _ h
      | lit n =>
        cases hread : readPrims t buf off n.toNat with
        | error e => simp [hread] at h
        | ok out' =>
          obtain ⟨vals, off'⟩ := out'
          simp only [hread] at h
          simp only [readPrims_append t buf extra _ _ _ hread]
          cases vals with
          | nil => exact ih _ _ _ h
          | cons v vs =>
            cases vs with
            | nil => exact ih _ _ _ h
            | cons w ws => exact ih _ _ _ h

/-!  Schema-compilation lemmas. -/

theorem new_composite_order (specs : List FieldSpec) :
    (new_composite specs).order = specs.map FieldSpec.name := by
  suffices h : ∀ (init : Schema),
      (specs.foldl
        (fun sc sp =>
          { order := sc.order ++ [sp.name],
            info := insertInfo sc.info sp.name (sp.ftype, sp.count, sp.default) })
        init).order = init.order ++ specs.map FieldSpec.name by
    simpa [new_composite] using h ⟨[], []⟩
  induction specs with
  | nil => intro init; simp
  | cons sp rest ih =>
    intro init
    simp only [List.foldl_cons, List.map_cons]
    rw [ih]
    simp

/-!
C3.  The source's `CompositeStructMixin.unpack` (types.py lines
216-219) reads `obj = cls.unpack_from(buf, 0); return obj`: there is no
check of the constructed value's size against `len(buffer)` and no
TrailingBytes error anywhere in the repository, so top-level `unpack`
accepts trailing bytes exactly as `unpack_from` does.
-/

/-- C3 counterexample: for the one-byte schema, `unpack` of the 2-byte
buffer `[1, 2]` succeeds (returning the composite with `x = 1`, whose
size 1 is less than the buffer length 2) instead of failing with a
TrailingBytes error as the claim requires. -/
theorem c3_counterexample :
    unpack 1 sByte [1, 2] = .ok ⟨[("x", .scalar 1)]⟩ ∧
    size 1 sByte ⟨[("x", .scalar 1)]⟩ = .ok (1, ⟨[("x", .scalar 1)]⟩) ∧
    [1, 2].length = 2 := by
  decide

/-- C3 amended: top-level `unpack(buffer)` calls `unpack_from(buffer, 0)`
and returns the constructed composite unconditionally; it performs no
trailing-bytes check, so whenever `unpack_from` succeeds on a buffer the
top-level `unpack` succeeds on that buffer extended by arbitrary
trailing bytes, returning the same composite. -/
theorem c3_unpack_amended (fuel : Nat) (s : Schema) (buf : List Nat) :
    (unpack fuel s buf =
      match unpack_from fuel s buf 0 with
      | .error e => .error e
      | .ok (st, _off) => .ok st) ∧
    ∀ st n extra, unpack_from fuel s buf 0 = .ok (st, n) →
      unpack fuel s (buf ++ extra) = .ok st := by
  constructor
  · rfl
  · intro st n extra h
    unfold unpack_from at h
    unfold unpack unpack_from
    rw [unpackFields_append fuel s buf extra s.order 0 .empty (st, n) h]

/-- C3 witness: the amended theorem applied to the one-byte schema and a
one-byte trailing extension. -/
theorem c3_witness :
    unpack_from 1 sByte [1] 0 = .ok (⟨[("x", .scalar 1)]⟩, 1) ∧
    unpack 1 sByte ([1] ++ [2]) = .ok ⟨[("x", .scalar 1)]⟩ :=
  ⟨by decide, (c3_unpack_amended 1 sByte [1]).2 ⟨[("x", .scalar 1)]⟩ 1 [2] (by decide)⟩

/-!
C4.  `DumpyMeta._new_composite` (types.py lines 330-350) only unpacks
the field 4-tuples into `__fields__` and `__field_info__`; it contains
no validation and no SchemaError, so a negative literal count is
accepted at compile time.  At run time such a field falls into the same
branches as a zero-count field (`count > 1` and `count == 1` both
false).
-/

/-- C4 counterexample: a schema whose single field has literal count
`-1` compiles successfully into a fully functional composite type
(whose `pack` works) instead of failing with a SchemaError as the claim
requires. -/
theorem c4_counterexample :
    sNeg = new_composite [field "f" .uint8 (.lit (-1))] ∧
    sNeg.order = ["f"] ∧
    sNeg.fieldInfo "f" = some (.uint8, .lit (-1), .noDefault) ∧
    pack 0 sNeg .empty = .ok ([], .empty) := by
  refine ⟨rfl, by decide, by decide, by decide⟩

/-- C4 amended: compiling an ordered list of field specifications never
fails: no count validation is performed, and every list of
specifications (negative literal counts included) yields a schema whose
field order is the declared name order; a field compiled with a
negative literal count behaves like a zero-count field at run time
(every assignment fails and `_get_field` resolves it to nothing without
touching the composite). -/
theorem c4_compile_no_validation (specs : List FieldSpec) :
    (new_composite specs).order = specs.map FieldSpec.name ∧
    ∀ f t n d, (new_composite specs).fieldInfo f = some (t, .lit n, d) → n < 0 →
      (∀ st v, setItem (new_composite specs) st f v = .error (.noSpace f)) ∧
      (∀ fuel st, get_field fuel (new_composite specs) st f (.lit n) d = .ok (none, st)) := by
  refine ⟨new_composite_order specs, ?_⟩
  intro f t n d hinfo hneg
  constructor
  · intro st v
    unfold setItem
    rw [hinfo]
    simp only
    rw [if_neg (by omega), if_neg (by omega)]
  · intro fuel st
    unfold get_field gfWith
    simp only
    rw [if_neg (by omega), if_neg (by omega)]

/-- C4 witness: the amended theorem applied to the negative-count
schema. -/
theorem c4_witness :
    sNeg.order = ["f"] ∧
    setItem sNeg .empty "f" (.scalar 3) = .error (.noSpace "f") ∧
    get_field 1 sNeg .empty "f" (.lit (-1)) .noDefault = .ok (none, .empty) := by
  have h := c4_compile_no_validation [field "f" .uint8 (.lit (-1))]
  have h2 := h.2 "f" .uint8 (-1) .noDefault (by decide) (by decide)
  exact ⟨h.1, h2.1 .empty (.scalar 3), h2.2 1 .empty⟩

/-!
C9.  The spec's concrete scenario, under the little-endian byte order
that the scenario itself fixes (the `config.ENDIAN` tag consumed when
the primitive types are defined): `len` is a `uint32` with default
`count_of('data')`, `data` a list of `uint8` counted by `len`.
-/

/-- C9: assigning `data = [1,2,3,4]` (itself accepted by `__setitem__`)
makes `pack` produce exactly `04 00 00 00 01 02 03 04`, and unpacking
that buffer and re-packing reproduces the same buffer. -/
theorem c9_concrete_scenario :
    setItem sLenData .empty "data" (.list [1, 2, 3, 4]) = .ok ⟨[("data", .list [1, 2, 3, 4])]⟩ ∧
    pack 2 sLenData ⟨[("data", .list [1, 2, 3, 4])]⟩ =
      .ok ([4, 0, 0, 0, 1, 2, 3, 4], ⟨[("data", .list [1, 2, 3, 4])]⟩) ∧
    unpack 2 sLenData [4, 0, 0, 0, 1, 2, 3, 4] =
      .ok ⟨[("len", .scalar 4), ("data", .list [1, 2, 3, 4])]⟩ ∧
    pack 2 sLenData ⟨[("len", .scalar 4), ("data", .list [1, 2, 3, 4])]⟩ =
      .ok ([4, 0, 0, 0, 1, 2, 3, 4], ⟨[("len", .scalar 4), ("data", .list [1, 2, 3, 4])]⟩) := by
  decide

/-!
C6.  `CompositeStructMixin.__setitem__` (types.py lines 132-166): shape
and arity checks on assignment.
-/

/-- C6: on assignment, a field with a resolver count or a literal count
above 1 rejects a non-sequence value with a WrongShape (`TypeError`)
error; for a literal count above 1 a longer sequence fails with a
TooManyValues (`ValueError`) error, a shorter one fails with an
InsufficientValues (`ValueError`) error when no default exists and is
accepted when a default exists; a literal count 1 field rejects any
sequence value with a WrongShape (`TypeError`) error. -/
theorem c6_setitem_checks (s : Schema) (f : String) (t : PrimTy)
    (cnt : CountSpec) (dflt : DefaultSpec)
    (h : s.fieldInfo f = some (t, cnt, dflt)) :
    (∀ st v r, cnt = .dyn r → setItem s st f (.scalar v) = .error (.needsList f)) ∧
    (∀ st v n, cnt = .lit n → 1 < n → setItem s st f (.scalar v) = .error (.needsList f)) ∧
    (∀ st vs n, cnt = .lit n → 1 < n → n < (vs.length : Int) →
      setItem s st f (.list vs) = .error (.needsValues f n vs.length)) ∧
    (∀ st vs n, cnt = .lit n → 1 < n → (vs.length : Int) < n → dflt = .noDefault →
      setItem s st f (.list vs) = .error (.needsValues f n vs.length)) ∧
    (∀ st vs n, cnt = .lit n → 1 < n → (vs.length : Int) < n → dflt ≠ .noDefault →
      setItem s st f (.list vs) = .ok (st.set f (.list vs))) ∧
    (∀ st vs, cnt = .lit 1 → setItem s st f (.list vs) = .error (.cannotAcceptList f)) := by
  refine ⟨?_, ?_, ?_, ?_, ?_, ?_⟩
  · intro st v r hc
    subst hc
    unfold setItem
    rw [h]
  · intro st v n hc hn
    subst hc
    unfold setItem
    rw [h]
    simp only
    rw [if_pos hn]
  · intro st vs n hc hn hlen
    subst hc
    unfold setItem
    rw [h]
    simp only
    rw [if_pos hn, if_pos hlen]
  · intro st vs n hc hn hlen hd
    subst hc
    unfold setItem
    rw [h]
    simp only
    rw [if_pos hn, if_neg (by omega), if_pos ⟨hlen, hd⟩]
  · intro st vs n hc hn hlen hd
    subst hc
    unfold setItem
    rw [h]
    simp only
    rw [if_pos hn, if_neg (by omega), if_neg (by exact fun hh => hd hh.2)]
  · intro st vs hc
    subst hc
    simp [setItem, h]

/-- C6 witness: the shape checks applied to one field of each arity
kind of `sArity`. -/
theorem c6_witness :
    setItem sArity .empty "d" (.scalar 3) = .error (.needsList "d") ∧
    setItem sArity .empty "a" (.scalar 3) = .error (.needsList "a") ∧
    setItem sArity .empty "a" (.list [1, 2, 3, 4, 5]) = .error (.needsValues "a" 4 5) ∧
    setItem sArity .empty "a" (.list [1, 2]) = .error (.needsValues "a" 4 2) ∧
    setItem sArity .empty "b" (.list [1, 2]) = .ok (Store.empty.set "b" (.list [1, 2])) ∧
    setItem sArity .empty "c" (.list [1]) = .error (.cannotAcceptList "c") := by
  have hd := c6_setitem_checks sArity "d" .uint8 (.dyn (.countedBy "c")) .noDefault (by decide)
  have ha := c6_setitem_checks sArity "a" .uint8 (.lit 4) .noDefault (by decide)
  have hb := c6_setitem_checks sArity "b" .uint8 (.lit 4) (.lit 7) (by decide)
  have hc := c6_setitem_checks sArity "c" .uint8 (.lit 1) .noDefault (by decide)
  exact ⟨hd.1 .empty 3 _ rfl,
    ha.2.1 .empty 3 4 rfl (by decide),
    ha.2.2.1 .empty [1, 2, 3, 4, 5] 4 rfl (by decide) (by decide),
    ha.2.2.2.1 .empty [1, 2] 4 rfl (by decide) (by decide) rfl,
    hb.2.2.2.2.1 .empty [1, 2] 4 rfl (by decide) (by decide) (by decide),
    hc.2.2.2.2.2 .empty [1] rfl⟩

/-!
C7.  `_get_field` for a literal count 1 (types.py lines 107-114)
evaluates a callable default against the composite *before* looking up
the stored value — even when a value is stored — so a failing default
resolver makes the read of a stored value fail.  Apart from that, the
claimed default/MissingField behavior holds.
-/

/-- C7 counterexample: `f` has literal count 1 and a stored value 5,
but reading it fails with the resolver's own `KeyError('g')` (the
default `counted_by('g')` is evaluated before the lookup and `g` is
absent with no default), so the stored value is not returned. -/
theorem c7_counterexample :
    setItem sPair .empty "f" (.scalar 5) = .ok ⟨[("f", .scalar 5)]⟩ ∧
    sPair.fieldInfo "f" = some (.uint8, .lit 1, .dyn (.countedBy "g")) ∧
    getItem 2 sPair ⟨[("f", .scalar 5)]⟩ "f" = .error (.keyError "g") := by
  decide

/-- C7 amended: on `get(name)` for a field with literal count 1, the
default resolver (when present) is evaluated against the composite
before the lookup even when a value is stored, and its failure
propagates; provided it succeeds (or the default is absent or a
literal): a stored value is returned; if absent and a default exists
the resolved default is returned, and packing consumes exactly its
packed bytes; if absent and no default exists, `get` and `pack` fail
with a MissingField (`KeyError`) error. -/
theorem c7_getitem_count1_amended (fuel : Nat) (s : Schema) (f : String) (t : PrimTy)
    (dflt : DefaultSpec) (h : s.fieldInfo f = some (t, .lit 1, dflt)) :
    (∀ st v, st.get f = some v → (dflt = .noDefault ∨ ∃ d, dflt = .lit d) →
      getItem fuel s st f = .ok (v, st)) ∧
    (∀ st st' d r v, dflt = .dyn r → evalResolver fuel s st r = .ok (d, st') →
      st'.get f = some v → getItem fuel s st f = .ok (v, st')) ∧
    (∀ st d, st.get f = none → dflt = .lit d → getItem fuel s st f = .ok (.scalar d, st)) ∧
    (∀ st st' d r, dflt = .dyn r → evalResolver fuel s st r = .ok (d, st') →
      st'.get f = none → getItem fuel s st f = .ok (.scalar d, st')) ∧
    (∀ st, st.get f = none → dflt = .noDefault → getItem fuel s st f = .error (.keyError f)) ∧
    (∀ st rest acc, st.get f = none → dflt = .noDefault →
      packFields fuel s (f :: rest) st acc = .error (.keyError f)) ∧
    (∀ st d bs rest acc, st.get f = none → dflt = .lit d → packPrim t d = .ok bs →
      packFields fuel s (f :: rest) st acc = packFields fuel s rest st (acc ++ bs)) := by
  refine ⟨?_, ?_, ?_, ?_, ?_, ?_, ?_⟩
  · intro st v hv hd
    rcases hd with hd | ⟨d, hd⟩ <;> subst hd <;>
      simp [getItem, giWith, h, gfWith, hv]
  · intro st st' d r v hd hr hv
    subst hd
    simp [getItem, giWith, h, gfWith, hr, hv]
  · intro st d hv hd
    subst hd
    simp [getItem, giWith, h, gfWith, hv]
  · intro st st' d r hd hr hv
    subst hd
    simp [getItem, giWith, h, gfWith, hr, hv]
  · intro st hv hd
    subst hd
    simp [getItem, giWith, h, gfWith, hv]
  · intro st rest acc hv hd
    subst hd
    unfold packFields
    simp [h, get_field, gfWith, hv]
  · intro st d bs rest acc hv hd hbs
    subst hd
    simp [packFields, h, get_field, gfWith, hv, packValues, FieldVal.toVals, hbs]

/-- C7 witness: the amended theorem at the literal-default field `e`
(stored and absent) and the no-default field `c` of `sArity`. -/
theorem c7_witness :
    getItem 1 sArity ⟨[("e", .scalar 9)]⟩ "e" = .ok (.scalar 9, ⟨[("e", .scalar 9)]⟩) ∧
    getItem 1 sArity .empty "e" = .ok (.scalar 5, .empty) ∧
    getItem 1 sArity .empty "c" = .error (.keyError "c") ∧
    packFields 1 sArity ["c"] .empty [] = .error (.keyError "c") ∧
    packFields 1 sArity ["e"] .empty [] = packFields 1 sArity [] .empty ([] ++ [5]) := by
  have he := c7_getitem_count1_amended 1 sArity "e" .uint8 (.lit 5) (by decide)
  have hc := c7_getitem_count1_amended 1 sArity "c" .uint8 .noDefault (by decide)
  exact ⟨he.1 _ (.scalar 9) (by decide) (Or.inr ⟨5, rfl⟩),
    he.2.2.1 .empty 5 (by decide) rfl,
    hc.2.2.2.2.1 .empty (by decide) rfl,
    hc.2.2.2.2.2.1 .empty [] [] (by decide) rfl,
    he.2.2.2.2.2.2 .empty 5 [5] [] [] (by decide) rfl (by decide)⟩

/-!
C8.  A literal count 0 field: `__setitem__` lines 165-166 rejects every
assignment, `_get_field` lines 115-116 resolves it to `None` (so
`__getitem__` fails and pack/size skip it), and `unpack_from` reads
`range(0)` values, leaving offset and store untouched.
-/

/-- C8: a field declared with literal count 0 can never be assigned
(every assignment fails with the no-space `ValueError`), can never be
read (the read fails with the cannot-read `ValueError`), contributes
exactly 0 bytes to `pack` and `size` (their traversals skip it,
composite state unchanged), and `unpack_from` neither advances the
offset nor stores anything for it. -/
theorem c8_zero_count (s : Schema) (f : String) (t : PrimTy) (dflt : DefaultSpec)
    (h : s.fieldInfo f = some (t, .lit 0, dflt)) :
    (∀ st v, setItem s st f v = .error (.noSpace f)) ∧
    (∀ fuel st, getItem fuel s st f = .error (.cannotRead f)) ∧
    (∀ fuel st rest acc, packFields fuel s (f :: rest) st acc = packFields fuel s rest st acc) ∧
    (∀ fuel st rest acc, sizeFields fuel s (f :: rest) st acc = sizeFields fuel s rest st acc) ∧
    (∀ fuel buf rest off st,
      unpackFields fuel s buf (f :: rest) off st = unpackFields fuel s buf rest off st) := by
  refine ⟨?_, ?_, ?_, ?_, ?_⟩
  · intro st v
    simp [setItem, h]
  · intro fuel st
    simp [getItem, giWith, h, get_field, gfWith]
  · intro fuel st rest acc
    simp [packFields, h, get_field, gfWith]
  · intro fuel st rest acc
    simp [sizeFields, h, get_field, gfWith]
  · intro fuel buf rest off st
    simp [unpackFields, h, readPrims]

/-- C8 witness: the zero-count theorem applied to `sZero`. -/
theorem c8_witness :
    setItem sZero ⟨[]⟩ "z" (.scalar 1) = .error (.noSpace "z") ∧
    getItem 3 sZero ⟨[]⟩ "z" = .error (.cannotRead "z") ∧
    packFields 3 sZero ["z"] ⟨[]⟩ [] = packFields 3 sZero [] ⟨[]⟩ [] ∧
    sizeFields 3 sZero ["z"] ⟨[]⟩ 0 = sizeFields 3 sZero [] ⟨[]⟩ 0 ∧
    unpackFields 3 sZero [7, 7] ["z"] 0 ⟨[]⟩ = unpackFields 3 sZero [7, 7] [] 0 ⟨[]⟩ := by
  have h := c8_zero_count sZero "z" .uint8 .noDefault (by decide)
  exact ⟨h.1 ⟨[]⟩ (.scalar 1), h.2.1 3 ⟨[]⟩, h.2.2.1 3 ⟨[]⟩ [] [],
    h.2.2.2.1 3 ⟨[]⟩ [] 0, h.2.2.2.2 3 [7, 7] [] 0 ⟨[]⟩⟩

/-!
C1 and C5 counterexamples.
-/

/-- C1 counterexample: the fully populated composite
`{len: 2, data: [1,2,3,4]}` of the one-byte length schema is built by
two validated assignments with no error, `pack` succeeds, yet
`unpack(pack(c))` stores `data = [1,2]` (the resolver count, 2, wins on
the way in while `pack` emitted all four stored values), so the result
is not field-wise equal to `c` and re-packing yields `[2,1,2]`, not the
original bytes. -/
theorem c1_counterexample :
    setItem sLenData8 .empty "len" (.scalar 2) = .ok ⟨[("len", .scalar 2)]⟩ ∧
    setItem sLenData8 ⟨[("len", .scalar 2)]⟩ "data" (.list [1, 2, 3, 4]) =
      .ok ⟨[("len", .scalar 2), ("data", .list [1, 2, 3, 4])]⟩ ∧
    pack 2 sLenData8 ⟨[("len", .scalar 2), ("data", .list [1, 2, 3, 4])]⟩ =
      .ok ([2, 1, 2, 3, 4], ⟨[("len", .scalar 2), ("data", .list [1, 2, 3, 4])]⟩) ∧
    unpack 2 sLenData8 [2, 1, 2, 3, 4] =
      .ok ⟨[("len", .scalar 2), ("data", .list [1, 2])]⟩ ∧
    Store.get ⟨[("len", .scalar 2), ("data", .list [1, 2])]⟩ "data" ≠
      Store.get ⟨[("len", .scalar 2), ("data", .list [1, 2, 3, 4])]⟩ "data" ∧
    pack 2 sLenData8 ⟨[("len", .scalar 2), ("data", .list [1, 2])]⟩ =
      .ok ([2, 1, 2], ⟨[("len", .scalar 2), ("data", .list [1, 2])]⟩) := by
  decide

/-- C5 counterexample: after the validated assignment `f = [5]` (legal:
the field has a default to backfill), both `size` and `pack` succeed
but extend the stored list in place to `[5, 9]`, so they are not
read-only. -/
theorem c5_counterexample :
    setItem sListDef .empty "f" (.list [5]) = .ok ⟨[("f", .list [5])]⟩ ∧
    size 1 sListDef ⟨[("f", .list [5])]⟩ = .ok (2, ⟨[("f", .list [5, 9])]⟩) ∧
    pack 1 sListDef ⟨[("f", .list [5])]⟩ = .ok ([5, 9], ⟨[("f", .list [5, 9])]⟩) ∧
    Store.get ⟨[("f", .list [5, 9])]⟩ "f" ≠ Store.get ⟨[("f", .list [5])]⟩ "f" := by
  decide

/-!
C2.  `pack` and `size` walk `__fields__` identically, resolving each
field with the same `_get_field` calls on the same threaded state; each
packed value contributes exactly its codec's width.
-/

theorem packValues_length (t : PrimTy) (vs : List Int) (bs : List Nat)
    (h : packValues t vs = .ok bs) : bs.length = vs.length * t.width := by
  induction vs generalizing bs with
  | nil =>
    unfold packValues at h
    cases h
    simp
  | cons v vs ih =>
    unfold packValues at h
    cases hp : packPrim t v with
    | error e => simp [hp] at h
    | ok b =>
      simp only [hp] at h
      cases hr : packValues t vs with
      | error e => simp [hr] at h
      | ok rest =>
        simp only [hr] at h
        cases h
        have h1 := packPrim_length t v b hp
        have h2 := ih rest hr
        simp [List.length_append, h1, h2]
        ring

theorem sizeFields_of_packFields (fuel : Nat) (s : Schema) (names : List String) :
    ∀ st acc B st₂, packFields fuel s names st acc = .ok (B, st₂) →
      sizeFields fuel s names st acc.length = .ok (B.length, st₂) := by
  induction names with
  | nil =>
    intro st acc B st₂ h
    unfold packFields at h
    cases h
    rfl
  | cons f rest ih =>
    intro st acc B st₂ h
    unfold packFields at h
    unfold sizeFields
    cases hinfo : s.fieldInfo f with
    | none => simp [hinfo] at h
    | some info =>
      obtain ⟨t, count, default⟩ := info
      simp only [hinfo] at h ⊢
      cases hgf : get_field fuel s st f count default with
      | error e => simp [hgf] at h
      | ok out =>
        obtain ⟨v?, st'⟩ := out
        simp only [hgf] at h ⊢
        cases v? with
        | none => exact ih st' acc B st₂ h
        | some v =>
          cases hpv : packValues t v.toVals with
          | error e => simp [hpv] at h
          | ok bs =>
            simp only [hpv] at h
            have := ih st' (acc ++ bs) B st₂ h
            rw [List.length_append, packValues_length t v.toVals bs hpv] at this
            exact this

/-- C2: whenever `pack` succeeds, `size` succeeds on the same composite
and returns exactly the length of the packed byte string (with the same
resulting composite state). -/
theorem c2_size_pack_consistency (fuel : Nat) (s : Schema) (st : Store)
    (B : List Nat) (st' : Store) (h : pack fuel s st = .ok (B, st')) :
    size fuel s st = .ok (B.length, st') := by
  have := sizeFields_of_packFields fuel s s.order st [] B st' h
  simpa [size] using this

/-- C2 witness: the consistency theorem at a concrete packed
composite. -/
theorem c2_witness :
    pack 1 sByte ⟨[("x", .scalar 1)]⟩ = .ok ([1], ⟨[("x", .scalar 1)]⟩) ∧
    size 1 sByte ⟨[("x", .scalar 1)]⟩ = .ok (1, ⟨[("x", .scalar 1)]⟩) :=
  ⟨by decide,
    c2_size_pack_consistency 1 sByte ⟨[("x", .scalar 1)]⟩ [1] ⟨[("x", .scalar 1)]⟩ (by decide)⟩

/-!
C10.  `CompositeStructMixin.pack_into` (types.py lines 190-214)
computes `self.size` and raises the insufficient-space `ValueError`
before any write; the insufficient-space error is raised at no other
site, so whenever `pack_into` fails with it the buffer is untouched.
-/

theorem notSpaceErr_error (α β : Type) (e : Err)
    (h : notSpaceErr (Except.error e : Except Err α)) :
    notSpaceErr (Except.error e : Except Err β) := by
  cases e <;> exact h

theorem edlWith_notSpace (re : Store → Resolver → Except Err (Int × Store))
    (hre : ∀ st r, notSpaceErr (re st r)) (st : Store) (r : Resolver) (n : Nat) :
    notSpaceErr (edlWith re st r n) := by
  induction n generalizing st with
  | zero => trivial
  | succ n ih =>
    unfold edlWith
    split
    · next e heq =>
      have h2 : notSpaceErr (Except.error e : Except Err (Int × Store)) := by
        rw [← heq]; exact hre st r
      exact notSpaceErr_error _ _ e h2
    · next v st' heq =>
      split
      · next e heq2 =>
        have h2 : notSpaceErr (Except.error e : Except Err (List Int × Store)) := by
          rw [← heq2]; exact ih st'
        exact notSpaceErr_error _ _ e h2
      · trivial

theorem gfWith_notSpace (re : Store → Resolver → Except Err (Int × Store))
    (hre : ∀ st r, notSpaceErr (re st r)) (st : Store) (f : String)
    (count : CountSpec) (default : DefaultSpec) :
    notSpaceErr (gfWith re st f count default) := by
  unfold gfWith
  split
  · split <;> trivial
  · split
    · split
      · trivial
      · split
        · split
          · trivial
          · trivial
          · split
            · next e heq =>
              have h2 : notSpaceErr (Except.error e : Except Err (List Int × Store)) := by
                rw [← heq]; exact edlWith_notSpace re hre st _ _
              exact notSpaceErr_error _ _ e h2
            · trivial
        · trivial
      · split
        · trivial
        · trivial
        · split
          · next e heq =>
            have h2 : notSpaceErr (Except.error e : Except Err (List Int × Store)) := by
              rw [← heq]; exact edlWith_notSpace re hre st _ _
            exact notSpaceErr_error _ _ e h2
          · trivial
    · split
      · split
        · split <;> trivial
        · split <;> trivial
        · split
          · next e heq =>
            have h2 : notSpaceErr (Except.error e : Except Err (Int × Store)) := by
              rw [← heq]; exact hre st _
            exact notSpaceErr_error _ _ e h2
          · split <;> trivial
      · trivial

theorem giWith_notSpace (s : Schema) (re : Store → Resolver → Except Err (Int × Store))
    (hre : ∀ st r, notSpaceErr (re st r)) (st : Store) (f : String) :
    notSpaceErr (giWith s re st f) := by
  unfold giWith
  split
  · trivial
  · split
    · next e heq =>
      have h2 : notSpaceErr (Except.error e : Except Err (Option FieldVal × Store)) := by
        rw [← heq]; exact gfWith_notSpace re hre st f _ _
      exact notSpaceErr_error _ _ e h2
    · trivial
    · trivial

theorem evalResolverWith_notSpace (gi : Store → String → Except Err (FieldVal × Store))
    (hgi : ∀ st g, notSpaceErr (gi st g)) (st : Store) (r : Resolver) :
    notSpaceErr (evalResolverWith gi st r) := by
  unfold evalResolverWith
  split
  · split
    · next e heq =>
      have h2 : notSpaceErr (Except.error e : Except Err (FieldVal × Store)) := by
        rw [← heq]; exact hgi st _
      exact notSpaceErr_error _ _ e h2
    · trivial
    · trivial
  · split
    · next e heq =>
      have h2 : notSpaceErr (Except.error e : Except Err (FieldVal × Store)) := by
        rw [← heq]; exact hgi st _
      exact notSpaceErr_error _ _ e h2
    · trivial
    · trivial

theorem getItemAux_notSpace (fuel : Nat) (s : Schema) (st : Store) (f : String) :
    notSpaceErr (getItemAux fuel s st f) := by
  induction fuel generalizing st f with
  | zero => exact giWith_notSpace s (fun _ _ => .error .outOfFuel) (fun _ _ => trivial) st f
  | succ fuel ih =>
    exact giWith_notSpace s _
      (fun st' r => evalResolverWith_notSpace _ (fun st'' g => ih st'' g) st' r) st f

theorem evalResolver_notSpace (fuel : Nat) (s : Schema) (st : Store) (r : Resolver) :
    notSpaceErr (evalResolver fuel s st r) := by
  cases fuel with
  | zero => trivial
  | succ fuel =>
    exact evalResolverWith_notSpace _ (fun st' g => getItemAux_notSpace fuel s st' g) st r

theorem get_field_notSpace (fuel : Nat) (s : Schema) (st : Store) (f : String)
    (count : CountSpec) (default : DefaultSpec) :
    notSpaceErr (get_field fuel s st f count default) :=
  gfWith_notSpace _ (fun st' r => evalResolver_notSpace fuel s st' r) st f count default

theorem sizeFields_notSpace (fuel : Nat) (s : Schema) (names : List String) :
    ∀ st acc, notSpaceErr (sizeFields fuel s names st acc) := by
  induction names with
  | nil => intro st acc; trivial
  | cons f rest ih =>
    intro st acc
    unfold sizeFields
    split
    · trivial
    · split
      · next e heq =>
        have h2 : notSpaceErr (Except.error e : Except Err (Option FieldVal × Store)) := by
          rw [← heq]; exact get_field_notSpace fuel s st f _ _
        exact notSpaceErr_error _ _ e h2
      · next st' heq => exact ih st' acc
      · next v st' heq => exact ih st' _

theorem packPrimInto_notSpace (t : PrimTy) (v : Int) (buf : List Nat) (off : Nat) :
    notSpaceErr (packPrimInto t v buf off) := by
  have hp : notSpaceErr (packPrim t v) := by
    unfold packPrim
    split <;> trivial
  unfold packPrimInto
  split
  · trivial
  · split
    · next e heq => rw [heq] at hp; exact hp
    · trivial

theorem writeValues_notSpace (t : PrimTy) (vs : List Int) :
    ∀ buf off, notSpaceErr (writeValues t vs buf off).1 := by
  induction vs with
  | nil => intro buf off; trivial
  | cons v rest ih =>
    intro buf off
    unfold writeValues
    split
    · next e heq =>
      have h2 : notSpaceErr (Except.error e : Except Err (List Nat)) := by
        rw [← heq]; exact packPrimInto_notSpace t v buf off
      exact notSpaceErr_error _ _ e h2
    · next buf' heq => exact ih buf' (off + t.width)

theorem packIntoFields_notSpace (fuel : Nat) (s : Schema) (names : List String) :
    ∀ st buf off, notSpaceErr (packIntoFields fuel s names st buf off).1 := by
  induction names with
  | nil => intro st buf off; trivial
  | cons f rest ih =>
    intro st buf off
    unfold packIntoFields
    split
    · trivial
    · next t count default heq0 =>
      split
      · next e heq =>
        have h2 : notSpaceErr (Except.error e : Except Err (Option FieldVal × Store)) := by
          rw [← heq]; exact get_field_notSpace fuel s st f _ _
        exact notSpaceErr_error _ _ e h2
      · next st' heq => exact ih st' buf off
      · next v st' heq =>
        split
        · next e buf' off2 heq2 =>
          have h2 : notSpaceErr (writeValues t v.toVals buf off).1 :=
            writeValues_notSpace t v.toVals buf off
          rw [heq2] at h2
          exact h2
        · next u buf' off' heq2 => exact ih st' buf' off'

/-- C10: whenever the composite `pack_into` fails with the
insufficient-space error, the buffer is returned exactly as it was
passed in — the total size is validated against the remaining space
before any byte is written, and no other code path raises that
error. -/
theorem c10_pack_into_atomic (fuel : Nat) (s : Schema) (st : Store) (buf : List Nat)
    (off a b : Nat) (h : (pack_into fuel s st buf off).1 = .error (.packIntoSpace a b)) :
    (pack_into fuel s st buf off).2.1 = buf := by
  unfold pack_into at h ⊢
  cases hs : size fuel s st with
  | error e => rfl
  | ok out =>
    obtain ⟨total, st'⟩ := out
    rw [hs] at h
    dsimp only at h ⊢
    by_cases hlt : buf.length - off < total
    · rw [if_pos hlt]
    · rw [if_neg hlt] at h
      have := packIntoFields_notSpace fuel s s.order st' buf off
      rw [h] at this
      exact this.elim

/-- C10 witness: a one-byte composite packed into an empty buffer. -/
theorem c10_witness :
    (pack_into 1 sByte ⟨[("x", .scalar 1)]⟩ [] 0).1 = .error (.packIntoSpace 1 0) ∧
    (pack_into 1 sByte ⟨[("x", .scalar 1)]⟩ [] 0).2.1 = [] :=
  ⟨by decide, c10_pack_into_atomic 1 sByte ⟨[("x", .scalar 1)]⟩ [] 0 1 0 (by decide)⟩

/-!
C5.  `pack` and `size` are not read-only: resolving a field whose
stored list is shorter than its literal count with a default present
extends the stored list in place (`val_list += default_list` on the
object returned by `_safe_get`).  That in-place extension is their only
mutation.
-/

theorem extendsBF_refl (st : Store) : ExtendsBF st st := fun _ => Or.inl rfl

theorem extendsBF_trans (st₁ st₂ st₃ : Store) (h1 : ExtendsBF st₁ st₂)
    (h2 : ExtendsBF st₂ st₃) : ExtendsBF st₁ st₃ := by
  intro f
  rcases h2 f with h2f | ⟨vs, ext, hv, hv'⟩
  · rw [h2f]
    exact h1 f
  · rcases h1 f with h1f | ⟨vs1, e1, hw, hw'⟩
    · right
      exact ⟨vs, ext, h1f ▸ hv, hv'⟩
    · right
      have hvv : vs = vs1 ++ e1 := by
        have h4 := hv.symm.trans hw'
        have h5 := Option.some.inj h4
        cases h5
        rfl
      refine ⟨vs1, e1 ++ ext, hw, ?_⟩
      rw [hv', hvv, List.append_assoc]

theorem extendsBF_set (st : Store) (f : String) (vs ext : List Int)
    (h : st.get f = some (.list vs)) :
    ExtendsBF st (st.set f (.list (vs ++ ext))) := by
  intro g
  by_cases hg : g = f
  · subst hg
    right
    exact ⟨vs, ext, h, Store.get_set_self st g _⟩
  · left
    exact Store.get_set_ne st f g _ hg

theorem edlWith_extends (re : Store → Resolver → Except Err (Int × Store))
    (hre : ∀ st r out, re st r = .ok out → ExtendsBF st out.2) :
    ∀ (n : Nat) (st : Store) (r : Resolver) (out : List Int × Store),
      edlWith re st r n = .ok out → ExtendsBF st out.2 := by
  intro n
  induction n with
  | zero =>
    intro st r out h
    unfold edlWith at h
    cases h
    exact extendsBF_refl st
  | succ n ih =>
    intro st r out h
    unfold edlWith at h
    split at h
    · cases h
    · next v st' heq =>
      split at h
      · cases h
      · next vs st'' heq2 =>
        cases h
        exact extendsBF_trans _ _ _ (hre st r (v, st') heq) (ih st' r (vs, st'') heq2)

theorem gfWith_extends (re : Store → Resolver → Except Err (Int × Store))
    (hre : ∀ st r out, re st r = .ok out → ExtendsBF st out.2)
    (st : Store) (f : String) (count : CountSpec) (default : DefaultSpec)
    (out : Option FieldVal × Store) (h : gfWith re st f count default = .ok out) :
    ExtendsBF st out.2 := by
  unfold gfWith at h
  split at h
  · split at h <;> cases h <;> exact extendsBF_refl st
  · split at h
    · split at h
      · cases h
      · next vs heq0 =>
        split at h
        · split at h
          · cases h
          · cases h
            exact extendsBF_set st f vs _ heq0
          · split at h
            · cases h
            · next ext st₁ heq2 =>
              cases h
              intro g
              by_cases hg : g = f
              · subst hg
                right
                exact ⟨vs, ext, heq0, Store.get_set_self st₁ g _⟩
              · rw [Store.get_set_ne st₁ f g _ hg]
                exact edlWith_extends re hre _ st _ (ext, st₁) heq2 g
        · cases h
          exact extendsBF_refl st
      · split at h
        · cases h
        · cases h
          exact extendsBF_refl st
        · split at h
          · cases h
          · next ext st₁ heq2 =>
            cases h
            exact edlWith_extends re hre _ st _ (ext, st₁) heq2
    · split at h
      · split at h
        · split at h <;> cases h <;> exact extendsBF_refl st
        · split at h <;> cases h <;> exact extendsBF_refl st
        · split at h
          · cases h
          · next d st' heq =>
            split at h <;> cases h <;> exact hre st _ (d, st') heq
      · cases h
        exact extendsBF_refl st

theorem giWith_extends (s : Schema) (re : Store → Resolver → Except Err (Int × Store))
    (hre : ∀ st r out, re st r = .ok out → ExtendsBF st out.2)
    (st : Store) (f : String) (out : FieldVal × Store) (h : giWith s re st f = .ok out) :
    ExtendsBF st out.2 := by
  unfold giWith at h
  split at h
  · cases h
  · split at h
    · cases h
    · cases h
    · next v st' heq =>
      cases h
      exact gfWith_extends re hre st f _ _ (some v, st') heq

theorem evalResolverWith_extends (gi : Store → String → Except Err (FieldVal × Store))
    (hgi : ∀ st g out, gi st g = .ok out → ExtendsBF st out.2)
    (st : Store) (r : Resolver) (out : Int × Store)
    (h : evalResolverWith gi st r = .ok out) : ExtendsBF st out.2 := by
  unfold evalResolverWith at h
  split at h
  · split at h
    · cases h
    · next n st' heq =>
      cases h
      exact hgi st _ (.scalar n, st') heq
    · cases h
  · split at h
    · cases h
    · next vs st' heq =>
      cases h
      exact hgi st _ (.list vs, st') heq
    · cases h

theorem getItemAux_extends (fuel : Nat) (s : Schema) :
    ∀ (st : Store) (f : String) (out : FieldVal × Store),
      getItemAux fuel s st f = .ok out → ExtendsBF st out.2 := by
  induction fuel with
  | zero =>
    intro st f out h
    refine giWith_extends s _ ?_ st f out h
    intro st' r out' h'
    cases h'
  | succ fuel ih =>
    intro st f out h
    refine giWith_extends s _ ?_ st f out h
    intro st' r out' h'
    exact evalResolverWith_extends _ (fun a b c hh => ih a b c hh) st' r out' h'

theorem evalResolver_extends (fuel : Nat) (s : Schema) (st : Store) (r : Resolver)
    (out : Int × Store) (h : evalResolver fuel s st r = .ok out) : ExtendsBF st out.2 := by
  cases fuel with
  | zero => cases h
  | succ fuel =>
    exact evalResolverWith_extends _ (fun a b c hh => getItemAux_extends fuel s a b c hh) st r out h

theorem get_field_extends (fuel : Nat) (s : Schema) (st : Store) (f : String)
    (count : CountSpec) (default : DefaultSpec) (out : Option FieldVal × Store)
    (h : get_field fuel s st f count default = .ok out) : ExtendsBF st out.2 :=
  gfWith_extends _ (fun a b c hh => evalResolver_extends fuel s a b c hh) st f count default out h

theorem packFields_extends (fuel : Nat) (s : Schema) (names : List String) :
    ∀ (st : Store) (acc : List Nat) (out : List Nat × Store),
      packFields fuel s names st acc = .ok out → ExtendsBF st out.2 := by
  induction names with
  | nil =>
    intro st acc out h
    unfold packFields at h
    cases h
    exact extendsBF_refl st
  | cons f rest ih =>
    intro st acc out h
    unfold packFields at h
    split at h
    · cases h
    · split at h
      · cases h
      · next st' heq =>
        exact extendsBF_trans _ _ _ (get_field_extends fuel s st f _ _ (none, st') heq)
          (ih st' acc out h)
      · next v st' heq =>
        split at h
        · cases h
        · exact extendsBF_trans _ _ _ (get_field_extends fuel s st f _ _ (some v, st') heq)
            (ih st' _ out h)

theorem sizeFields_extends (fuel : Nat) (s : Schema) (names : List String) :
    ∀ (st : Store) (acc : Nat) (out : Nat × Store),
      sizeFields fuel s names st acc = .ok out → ExtendsBF st out.2 := by
  induction names with
  | nil =>
    intro st acc out h
    unfold sizeFields at h
    cases h
    exact extendsBF_refl st
  | cons f rest ih =>
    intro st acc out h
    unfold sizeFields at h
    split at h
    · cases h
    · split at h
      · cases h
      · next st' heq =>
        exact extendsBF_trans _ _ _ (get_field_extends fuel s st f _ _ (none, st') heq)
          (ih st' acc out h)
      · next v st' heq =>
        exact extendsBF_trans _ _ _ (get_field_extends fuel s st f _ _ (some v, st') heq)
          (ih st' _ out h)

/-- C5 amended: `pack` and `size` never remove or overwrite a stored
field value; their only mutation is the in-place extension of a stored
sequence (shorter than its literal count, with a default present) by
backfilled default values, so every stored value of the resulting
composite either equals the original or is the original stored list
with values appended.  Composites are otherwise mutated only through
field assignment and `unpack_from`. -/
theorem c5_pack_size_mutation (fuel : Nat) (s : Schema) (st : Store) :
    (∀ B st', pack fuel s st = .ok (B, st') → ExtendsBF st st') ∧
    (∀ n st', size fuel s st = .ok (n, st') → ExtendsBF st st') := by
  constructor
  · intro B st' h
    exact packFields_extends fuel s s.order st [] (B, st') h
  · intro n st' h
    exact sizeFields_extends fuel s s.order st 0 (n, st') h

/-- C5 witness: the mutation bound at the short-list composite: `size`
extends `f` from `[5]` to `[5, 9]` and the relation certifies that this
is an in-place extension of the stored list. -/
theorem c5_witness :
    size 1 sListDef ⟨[("f", .list [5])]⟩ = .ok (2, ⟨[("f", .list [5, 9])]⟩) ∧
    ExtendsBF ⟨[("f", .list [5])]⟩ ⟨[("f", .list [5, 9])]⟩ :=
  ⟨by decide,
    (c5_pack_size_mutation 1 sListDef ⟨[("f", .list [5])]⟩).2 2 ⟨[("f", .list [5, 9])]⟩
      (by decide)⟩

/-!
C1.  The round-trip law.  On the way out, a resolver-count field packs
*all* its stored values, while on the way in `unpack_from` reads only
as many as the resolver yields, so the law needs the stored count data
to be consistent with the stored lists; the counterexample above shows
it fails otherwise.  The lemmas below rebuild the law under that
consistency condition.
-/

theorem packFields_append_acc (fuel : Nat) (s : Schema) (names : List String) :
    ∀ (st : Store) (acc acc' : List Nat),
      packFields fuel s names st (acc ++ acc') =
        (packFields fuel s names st acc').map (fun p => (acc ++ p.1, p.2)) := by
  induction names with
  | nil => intro st acc acc'; rfl
  | cons f rest ih =>
    intro st acc acc'
    unfold packFields
    cases hinfo : s.fieldInfo f with
    | none => rfl
    | some info =>
      obtain ⟨t, count, default⟩ := info
      dsimp only
      cases hgf : get_field fuel s st f count default with
      | error e => rfl
      | ok out =>
        obtain ⟨v?, st'⟩ := out
        cases v? with
        | none => exact ih st' acc acc'
        | some v =>
          cases hpv : packValues t v.toVals with
          | error e => simp [hpv, Except.map]
          | ok bs =>
            simp only [hpv]
            rw [List.append_assoc]
            exact ih st' acc (acc' ++ bs)

theorem unpackPrimFrom_at (t : PrimTy) (pre mid post : List Nat)
    (hm : mid.length = t.width) :
    unpackPrimFrom t (pre ++ mid ++ post) pre.length = .ok (decodePrim t mid) := by
  unfold unpackPrimFrom
  rw [if_pos (by simp; omega)]
  rw [List.append_assoc, List.drop_left, ← hm, List.take_left]

theorem packValues_readPrims (t : PrimTy) (vs : List Int)
    (h : ∀ v ∈ vs, t.inRange v = true) :
    ∃ bs, packValues t vs = .ok bs ∧ bs.length = vs.length * t.width ∧
      ∀ pre post, readPrims t (pre ++ bs ++ post) pre.length vs.length
        = .ok (vs, pre.length + bs.length) := by
  induction vs with
  | nil =>
    refine ⟨[], rfl, by simp, ?_⟩
    intro pre post
    simp [readPrims]
  | cons v rest ih =>
    obtain ⟨bs, hpv, hlen, hread⟩ := ih (fun w hw => h w (List.mem_cons_of_mem v hw))
    have hv : t.inRange v = true := h v (List.mem_cons_self v rest)
    refine ⟨encodePrim t v ++ bs, ?_, ?_, ?_⟩
    · unfold packValues
      rw [packPrim_of_inRange t v hv, hpv]
    · simp [encodePrim_length, hlen]
      ring
    · intro pre post
      simp only [List.length_cons]
      unfold readPrims
      have hbuf : pre ++ (encodePrim t v ++ bs) ++ post
          = pre ++ encodePrim t v ++ (bs ++ post) := by
        simp [List.append_assoc]
      rw [hbuf, unpackPrimFrom_at t pre (encodePrim t v) (bs ++ post) (encodePrim_length t v)]
      dsimp only
      rw [decode_encode t v hv]
      have hoff : pre.length + t.width = (pre ++ encodePrim t v).length := by
        simp [encodePrim_length]
      rw [hoff]
      have hr2 := hread (pre ++ encodePrim t v) post
      rw [List.append_assoc] at hr2
      rw [hr2]
      dsimp only
      have hlen2 : (pre ++ encodePrim t v).length + bs.length
          = pre.length + (encodePrim t v ++ bs).length := by
        simp [encodePrim_length]
        omega
      rw [hlen2]

theorem packsStored_of_goodFieldAt (fuel : Nat) (s : Schema) (st : Store)
    (done : List String) (f : String) (h : goodFieldAt fuel s st done f = true) :
    packsStored fuel s st f = true := by
  unfold goodFieldAt at h
  unfold packsStored
  cases hinfo : s.fieldInfo f with
  | none => rw [hinfo] at h; simp at h
  | some info =>
    obtain ⟨t, cnt, dflt⟩ := info
    rw [hinfo] at h
    dsimp only at h ⊢
    cases cnt with
    | lit n =>
      dsimp only at h
      by_cases hn1 : n = 1
      · rw [if_pos hn1] at h
        subst hn1
        cases hv : st.get f with
        | none => rw [hv] at h; simp at h
        | some v =>
          rw [hv] at h
          cases v with
          | scalar w =>
            dsimp only at h
            rw [Bool.and_eq_true] at h
            exact h.2
          | list vs => simp at h
      · rw [if_neg hn1] at h
        by_cases hlt : 1 < n
        · rw [if_pos hlt] at h
          cases hv : st.get f with
          | none => rw [hv] at h; simp at h
          | some v =>
            rw [hv] at h
            cases v with
            | scalar w => simp at h
            | list vs =>
              dsimp only at h
              rw [Bool.and_eq_true] at h
              have hlen : (vs.length : Int) = n := of_decide_eq_true h.1
              have hG : get_field fuel s st f (.lit n) dflt = .ok (some (.list vs), st) := by
                unfold get_field gfWith
                dsimp only
                rw [if_pos hlt, hv]
                dsimp only
                rw [if_neg (by omega)]
              simp [hG]
        · rw [if_neg hlt] at h
          have hv : st.get f = none := of_decide_eq_true h
          rw [hv]
          have hG : get_field fuel s st f (.lit n) dflt = .ok (none, st) := by
            unfold get_field gfWith
            dsimp only
            rw [if_neg hlt, if_neg hn1]
          simp [hG]
    | dyn r =>
      dsimp only at h
      cases hv : st.get f with
      | none => rw [hv] at h; simp at h
      | some v =>
        rw [hv] at h
        cases v with
        | scalar w => simp at h
        | list vs =>
          have hG : get_field fuel s st f (.dyn r) dflt = .ok (some (.list vs), st) := by
            unfold get_field gfWith
            rw [hv]
          simp [hG]

theorem goodFields_mem_packsStored (fuel : Nat) (s : Schema) (st : Store) :
    ∀ (names done : List String), goodFields fuel s st done names = true →
      ∀ f ∈ names, packsStored fuel s st f = true := by
  intro names
  induction names with
  | nil => intro done h f hf; cases hf
  | cons g rest ih =>
    intro done h f hf
    unfold goodFields at h
    rw [Bool.and_eq_true] at h
    obtain ⟨h1, h2⟩ := h
    rcases List.mem_cons.mp hf with hfg | hfr
    · subst hfg
      exact packsStored_of_goodFieldAt fuel s st done f h1
    · exact ih (done ++ [g]) h2 f hfr

theorem packFields_stored (fuel : Nat) (s : Schema) (names : List String) :
    ∀ (st₁ st₂ : Store) (acc B : List Nat) (st₁' : Store),
      (∀ f ∈ names, packsStored fuel s st₁ f = true ∧ packsStored fuel s st₂ f = true ∧
        st₁.get f = st₂.get f) →
      packFields fuel s names st₁ acc = .ok (B, st₁') →
      packFields fuel s names st₂ acc = .ok (B, st₂) := by
  induction names with
  | nil =>
    intro st₁ st₂ acc B st₁' hps hpk
    unfold packFields at hpk ⊢
    cases hpk
    rfl
  | cons f rest ih =>
    intro st₁ st₂ acc B st₁' hps hpk
    obtain ⟨p1, p2, pe⟩ := hps f (List.mem_cons_self f rest)
    have hpsr : ∀ g ∈ rest, packsStored fuel s st₁ g = true ∧
        packsStored fuel s st₂ g = true ∧ st₁.get g = st₂.get g :=
      fun g hg => hps g (List.mem_cons_of_mem f hg)
    unfold packsStored at p1 p2
    cases hinfo : s.fieldInfo f with
    | none => rw [hinfo] at p1; simp at p1
    | some info =>
      obtain ⟨t, cnt, dflt⟩ := info
      rw [hinfo] at p1 p2
      dsimp only at p1 p2
      unfold packFields at hpk ⊢
      rw [hinfo] at hpk ⊢
      dsimp only at hpk ⊢
      cases hv1 : st₁.get f with
      | some v =>
        have hv2 : st₂.get f = some v := by rw [← pe, hv1]
        rw [hv1] at p1
        rw [hv2] at p2
        have hG1 := of_decide_eq_true p1
        have hG2 := of_decide_eq_true p2
        rw [hG1] at hpk
        rw [hG2]
        dsimp only at hpk ⊢
        cases hpv : packValues t v.toVals with
        | error e => rw [hpv] at hpk; simp at hpk
        | ok bs =>
          rw [hpv] at hpk
          exact ih st₁ st₂ (acc ++ bs) B st₁' hpsr hpk
      | none =>
        have hv2 : st₂.get f = none := by rw [← pe, hv1]
        rw [hv1] at p1
        rw [hv2] at p2
        have hG1 := of_decide_eq_true p1
        have hG2 := of_decide_eq_true p2
        rw [hG1] at hpk
        rw [hG2]
        exact ih st₁ st₂ acc B st₁' hpsr hpk



theorem roundtrip_aux (fuel : Nat) (s : Schema) (st : Store) :
    ∀ (names done : List String),
      s.order = done ++ names →
      goodFields fuel s st done names = true →
      ∃ B, packFields fuel s names st [] = .ok (B, st) ∧
        ∀ pre post,
          unpackFields fuel s (pre ++ B ++ post) names pre.length (builtUpTo st done)
            = .ok (builtUpTo st s.order, pre.length + B.length) := by
  intro names
  induction names with
  | nil =>
    intro done horder hg
    refine ⟨[], rfl, ?_⟩
    intro pre post
    have hdone : done = s.order := by rw [horder, List.append_nil]
    unfold unpackFields
    rw [hdone]
    simp
  | cons f rest ih =>
    intro done horder hg
    unfold goodFields at hg
    rw [Bool.and_eq_true] at hg
    obtain ⟨h1, h2⟩ := hg
    have horder2 : s.order = (done ++ [f]) ++ rest := by rw [horder]; simp
    obtain ⟨B', hpack', hunpack'⟩ := ih (done ++ [f]) horder2 h2
    have hpackStep : ∀ bf, packFields fuel s rest st bf = .ok (bf ++ B', st) := by
      intro bf
      have hacc := packFields_append_acc fuel s rest st bf []
      rw [List.append_nil] at hacc
      rw [hacc, hpack']
      rfl
    unfold goodFieldAt at h1
    cases hinfo : s.fieldInfo f with
    | none => rw [hinfo] at h1; simp at h1
    | some info =>
      obtain ⟨t, cnt, dflt⟩ := info
      rw [hinfo] at h1
      dsimp only at h1
      cases cnt with
      | lit n =>
        dsimp only at h1
        by_cases hn1 : n = 1
        · rw [if_pos hn1] at h1
          subst hn1
          cases hv : st.get f with
          | none => rw [hv] at h1; simp at h1
          | some v0 =>
            rw [hv] at h1
            cases v0 with
            | list vs => simp at h1
            | scalar v =>
              dsimp only at h1
              rw [Bool.and_eq_true] at h1
              have hr : t.inRange v = true := h1.1
              have hG : get_field fuel s st f (.lit 1) dflt = .ok (some (.scalar v), st) :=
                of_decide_eq_true h1.2
              obtain ⟨bf, hbf, hbflen, hbfread⟩ := packValues_readPrims t [v] (by
                intro w hw
                simp at hw
                subst hw
                exact hr)
              refine ⟨bf ++ B', ?_, ?_⟩
              · unfold packFields
                rw [hinfo]
                dsimp only
                rw [hG]
                dsimp only
                rw [show FieldVal.toVals (.scalar v) = [v] from rfl, hbf]
                exact hpackStep bf
              · intro pre post
                unfold unpackFields
                rw [hinfo]
                dsimp only
                have hbuf : pre ++ (bf ++ B') ++ post = pre ++ bf ++ (B' ++ post) := by simp
                rw [hbuf]
                rw [show ((1 : Int).toNat) = [v].length from rfl]
                rw [hbfread pre (B' ++ post)]
                dsimp only
                have hstep : (builtUpTo st done).set f (.scalar v) = builtUpTo st (done ++ [f]) := by
                  rw [builtUpTo_append, hv]
                rw [hstep]
                have h3 := hunpack' (pre ++ bf) post
                rw [List.length_append, List.append_assoc] at h3
                rw [h3]
                simp [Nat.add_assoc]
        · rw [if_neg hn1] at h1
          by_cases hlt : 1 < n
          · rw [if_pos hlt] at h1
            cases hv : st.get f with
            | none => rw [hv] at h1; simp at h1
            | some v0 =>
              rw [hv] at h1
              cases v0 with
              | scalar w => simp at h1
              | list vs =>
                dsimp only at h1
                rw [Bool.and_eq_true] at h1
                have hlen : (vs.length : Int) = n := of_decide_eq_true h1.1
                have hall : ∀ w ∈ vs, t.inRange w = true := List.all_eq_true.mp h1.2
                have hG : get_field fuel s st f (.lit n) dflt = .ok (some (.list vs), st) := by
                  unfold get_field gfWith
                  dsimp only
                  rw [if_pos hlt, hv]
                  dsimp only
                  rw [if_neg (by omega)]
                obtain ⟨bf, hbf, hbflen, hbfread⟩ := packValues_readPrims t vs hall
                refine ⟨bf ++ B', ?_, ?_⟩
                · unfold packFields
                  rw [hinfo]
                  dsimp only
                  rw [hG]
                  dsimp only
                  rw [show FieldVal.toVals (.list vs) = vs from rfl, hbf]
                  exact hpackStep bf
                · intro pre post
                  unfold unpackFields
                  rw [hinfo]
                  dsimp only
                  have hbuf : pre ++ (bf ++ B') ++ post = pre ++ bf ++ (B' ++ post) := by simp
                  rw [hbuf]
                  have hnn : n.toNat = vs.length := by omega
                  rw [hnn]
                  rw [hbfread pre (B' ++ post)]
                  dsimp only
                  obtain ⟨a, vs1, rfl⟩ : ∃ a vs1, vs = a :: vs1 := by
                    cases vs with
                    | nil => exfalso; simp at hlen; omega
                    | cons a vs1 => exact ⟨a, vs1, rfl⟩
                  obtain ⟨b, vs2, rfl⟩ : ∃ b vs2, vs1 = b :: vs2 := by
                    cases vs1 with
                    | nil => exfalso; simp at hlen; omega
                    | cons b vs2 => exact ⟨b, vs2, rfl⟩
                  dsimp only
                  have hstep : (builtUpTo st done).set f (.list (a :: b :: vs2))
                      = builtUpTo st (done ++ [f]) := by
                    rw [builtUpTo_append, hv]
                  rw [hstep]
                  have h3 := hunpack' (pre ++ bf) post
                  rw [List.length_append, List.append_assoc] at h3
                  rw [h3]
                  simp [Nat.add_assoc]
          · rw [if_neg hlt] at h1
            have hv : st.get f = none := of_decide_eq_true h1
            have hG : get_field fuel s st f (.lit n) dflt = .ok (none, st) := by
              unfold get_field gfWith
              dsimp only
              rw [if_neg hlt, if_neg hn1]
            refine ⟨B', ?_, ?_⟩
            · unfold packFields
              rw [hinfo]
              dsimp only
              rw [hG]
              exact hpack'
            · intro pre post
              unfold unpackFields
              rw [hinfo]
              dsimp only
              have hn0 : n.toNat = 0 := by omega
              rw [hn0]
              simp only [readPrims]
              have hstep : builtUpTo st (done ++ [f]) = builtUpTo st done := by
                rw [builtUpTo_append, hv]
              rw [← hstep]
              exact hunpack' pre post
      | dyn r =>
        dsimp only at h1
        cases hv : st.get f with
        | none => rw [hv] at h1; simp at h1
        | some v0 =>
          rw [hv] at h1
          cases v0 with
          | scalar w => simp at h1
          | list vs =>
            dsimp only at h1
            rw [Bool.and_eq_true] at h1
            have hall : ∀ w ∈ vs, t.inRange w = true := List.all_eq_true.mp h1.1
            have hres : evalResolver fuel s (builtUpTo st done) r
                = .ok ((vs.length : Int), builtUpTo st done) := of_decide_eq_true h1.2
            have hG : get_field fuel s st f (.dyn r) dflt = .ok (some (.list vs), st) := by
              unfold get_field gfWith
              rw [hv]
            obtain ⟨bf, hbf, hbflen, hbfread⟩ := packValues_readPrims t vs hall
            refine ⟨bf ++ B', ?_, ?_⟩
            · unfold packFields
              rw [hinfo]
              dsimp only
              rw [hG]
              dsimp only
              rw [show FieldVal.toVals (.list vs) = vs from rfl, hbf]
              exact hpackStep bf
            · intro pre post
              unfold unpackFields
              rw [hinfo]
              dsimp only
              rw [hres]
              dsimp only
              have hbuf : pre ++ (bf ++ B') ++ post = pre ++ bf ++ (B' ++ post) := by simp
              rw [hbuf]
              have hcast : ((vs.length : Int)).toNat = vs.length := by omega
              rw [hcast]
              rw [hbfread pre (B' ++ post)]
              dsimp only
              have hstep : (builtUpTo st done).set f (.list vs)
                  = builtUpTo st (done ++ [f]) := by
                rw [builtUpTo_append, hv]
              rw [hstep]
              have h3 := hunpack' (pre ++ bf) post
              rw [List.length_append, List.append_assoc] at h3
              rw [h3]
              simp [Nat.add_assoc]



/-- C1 amended: for every schema of the embedded engine and every fully
populated, consistent composite — each literal-count-1 field stores an
in-range scalar that `_get_field` resolves without error or mutation,
each literal count above 1 stores exactly that many in-range values,
non-positive literal counts store nothing, each resolver-count field
stores an in-range list whose resolver, evaluated against the partially
rebuilt composite exactly as `unpack_from` sees it, yields precisely
the stored length, and `_get_field` on the reconstructed composite
resolves every field to its stored value — `unpack(pack(c))` is
field-wise equal to `c` and `pack(unpack(pack(c)))` equals `pack(c)`
byte for byte.  (The counterexample shows the consistency requirement
is what the source forces: `pack` emits all stored values of a
resolver-count field while `unpack_from` reads only as many as the
resolver yields.) -/
theorem c1_roundtrip_amended (fuel : Nat) (s : Schema) (st : Store)
    (hgood : goodFields fuel s st [] s.order = true)
    (hU : ∀ f ∈ s.order, packsStored fuel s (builtUpTo st s.order) f = true) :
    ∃ B, pack fuel s st = .ok (B, st) ∧
      unpack fuel s B = .ok (builtUpTo st s.order) ∧
      (∀ f ∈ s.order, (builtUpTo st s.order).get f = st.get f) ∧
      pack fuel s (builtUpTo st s.order) = .ok (B, builtUpTo st s.order) := by
  obtain ⟨B, hpack, hunpack⟩ := roundtrip_aux fuel s st s.order [] rfl hgood
  have hmem : ∀ f ∈ s.order, (builtUpTo st s.order).get f = st.get f := by
    intro f hf
    rw [builtUpTo_get]
    simp [hf]
  refine ⟨B, hpack, ?_, hmem, ?_⟩
  · unfold unpack unpack_from
    have h0 := hunpack [] []
    simp only [List.nil_append, List.append_nil, List.length_nil] at h0
    have hempty : builtUpTo st ([] : List String) = Store.empty := rfl
    rw [hempty] at h0
    rw [h0]
  · have hst : ∀ f ∈ s.order, packsStored fuel s st f = true :=
      goodFields_mem_packsStored fuel s st s.order [] hgood
    exact packFields_stored fuel s s.order st (builtUpTo st s.order) [] B st
      (fun f hf => ⟨hst f hf, hU f hf, (hmem f hf).symm⟩) hpack

/-- C1 witness: the amended round-trip law applied to the one-byte
length schema with the consistent composite `{len: 2, data: [5, 6]}`. -/
theorem c1_witness :
    goodFields 3 sLenData8 stC1 [] sLenData8.order = true ∧
    (∀ f ∈ sLenData8.order, packsStored 3 sLenData8 (builtUpTo stC1 sLenData8.order) f = true) ∧
    (∃ B, pack 3 sLenData8 stC1 = .ok (B, stC1) ∧
      unpack 3 sLenData8 B = .ok (builtUpTo stC1 sLenData8.order) ∧
      (∀ f ∈ sLenData8.order, (builtUpTo stC1 sLenData8.order).get f = stC1.get f) ∧
      pack 3 sLenData8 (builtUpTo stC1 sLenData8.order)
        = .ok (B, builtUpTo stC1 sLenData8.order)) :=
  ⟨by decide, by decide, c1_roundtrip_amended 3 sLenData8 stC1 (by decide) (by decide)⟩

end Dumpy
